import Mathlib

set_option maxRecDepth 100000

/-!
Verification of the DNS forwarder codec and resolution pipeline.

This file is a shallow embedding of the Go source (`app/main.go`) of the
dns-forwarder repository.  Bytes are modelled as `Nat` (values below 256 on
real datagrams), frames as `List Nat`, Go strings as `List Nat` (their bytes).
Fallible Go functions return `Res α`:

* `Res.ok`  — the Go function returned a value and a nil error;
* `Res.err` — the Go function returned a non-nil error (the Go error text);
* `Res.oob` — the Go code performed an out-of-range index or slice
  expression, i.e. a runtime panic.  The Go source contains no `recover`,
  so `Res.oob` corresponds to a crash of the whole process.

Two bounds matter.  Go indexing `frame[i]` panics when `i ≥ len(frame)`;
a Go slice expression `src[off : off+n]` panics only when `off+n` exceeds
`cap(src)`.  In the server loop every frame is `buf[:size]` with capacity
512, so a slice expression may reach past the frame's length into the
spare region of the buffer (bytes left over from earlier datagrams)
without panicking.  The model below is therefore split: `deserialize`
models a frame whose capacity equals its length (`cap = len`), which is
exact whenever every read stays inside the frame, and `deserializeCap`
takes the spare region as an explicit parameter and models the server's
`buf[:size]` frames; `deserializeCap frame [] = deserialize frame` is
proved below (`deserializeCap_nil`).

Go's unbounded loops are modelled with an explicit fuel parameter; for each
such loop the chosen fuel is proved sufficient (the fuel-stabilisation
lemmas below), so the fuelled function agrees with the unbounded Go loop.
-/

/-- Result of running a piece of Go code: normal return, returned error, or
runtime panic (out-of-range access). -/
inductive Res (α : Type) where
  | ok (a : α)
  | err (msg : String)
  | oob
deriving DecidableEq, Repr

/-- The value of a `Res.ok`, if any. -/
def Res.toOption {α : Type} : Res α → Option α
  | .ok a => some a
  | .err _ => none
  | .oob => none

/-- RFC 1035 4.1.1 header: the fixed 12-byte array `header.bytes` of the Go
source, one field per byte. -/
structure Header where
  b0 : Nat
  b1 : Nat
  b2 : Nat
  b3 : Nat
  b4 : Nat
  b5 : Nat
  b6 : Nat
  b7 : Nat
  b8 : Nat
  b9 : Nat
  b10 : Nat
  b11 : Nat
deriving DecidableEq, Repr

/-- `new(header)`: the zero value of the 12-byte array. -/
def Header.new : Header := ⟨0, 0, 0, 0, 0, 0, 0, 0, 0, 0, 0, 0⟩

/-- The 12 header bytes in order, as serialized by `m.header.bytes[:]`. -/
def Header.toBytes (h : Header) : List Nat :=
  [h.b0, h.b1, h.b2, h.b3, h.b4, h.b5, h.b6, h.b7, h.b8, h.b9, h.b10, h.b11]

/-- `copy(header.bytes[:], frame)` onto a fresh zero array: byte `i` is
`frame[i]` when present and `0` otherwise. -/
def Header.ofFrame (frame : List Nat) : Header :=
  { b0 := frame.getD 0 0, b1 := frame.getD 1 0, b2 := frame.getD 2 0
    b3 := frame.getD 3 0, b4 := frame.getD 4 0, b5 := frame.getD 5 0
    b6 := frame.getD 6 0, b7 := frame.getD 7 0, b8 := frame.getD 8 0
    b9 := frame.getD 9 0, b10 := frame.getD 10 0, b11 := frame.getD 11 0 }

/-- `setId`: big-endian `PutUint16` into bytes 0..1 (`% 256` models the byte
cast, `/ 256` the high byte of the 16-bit value). -/
def Header.setId (h : Header) (id : Nat) : Header :=
  { h with b0 := id / 256 % 256, b1 := id % 256 }

/-- `h.bytes[2] = h.bytes[2] | isReply<<7` (uint8 shift wraps mod 256). -/
def Header.setQR (h : Header) (isReply : Nat) : Header :=
  { h with b2 := h.b2 ||| (isReply <<< 7) % 256 }

/-- `OPCODE() = (h.bytes[2] & 0b01111000) >> 3`. -/
def Header.OPCODE (h : Header) : Nat := (h.b2 &&& 0b01111000) >>> 3

/-- `h.bytes[2] = h.bytes[2] | isAuthoritativeAnswer<<2`. -/
def Header.setAA (h : Header) (v : Nat) : Header :=
  { h with b2 := h.b2 ||| (v <<< 2) % 256 }

/-- `h.bytes[2] = h.bytes[2] | isTruncated<<1`. -/
def Header.setTC (h : Header) (v : Nat) : Header :=
  { h with b2 := h.b2 ||| (v <<< 1) % 256 }

/-- `h.bytes[2] = h.bytes[2] | recursionDesired`. -/
def Header.setRD (h : Header) (v : Nat) : Header :=
  { h with b2 := h.b2 ||| v % 256 }

/-- `RD() = h.bytes[2] & 0b00000001`. -/
def Header.RD (h : Header) : Nat := h.b2 &&& 0b00000001

/-- `h.bytes[3] = h.bytes[3] | recursionAvailable<<7`. -/
def Header.setRA (h : Header) (v : Nat) : Header :=
  { h with b3 := h.b3 ||| (v <<< 7) % 256 }

/-- `h.bytes[3] = (h.bytes[3] & 0b10001111) | (val & 0b01110000)`. -/
def Header.setZ (h : Header) (v : Nat) : Header :=
  { h with b3 := (h.b3 &&& 0b10001111) ||| (v &&& 0b01110000) }

/-- `h.bytes[3] = (h.bytes[3] & 0b11110000) | (code & 0b00001111)`. -/
def Header.setRCODE (h : Header) (c : Nat) : Header :=
  { h with b3 := (h.b3 &&& 0b11110000) ||| (c &&& 0b00001111) }

/-- `setQDCOUNT`: big-endian `PutUint16` into bytes 4..5. -/
def Header.setQDCOUNT (h : Header) (c : Nat) : Header :=
  { h with b4 := c / 256 % 256, b5 := c % 256 }

/-- `QDCOUNT() = BigEndian.Uint16(h.bytes[4:6])`. -/
def Header.QDCOUNT (h : Header) : Nat := h.b4 * 256 + h.b5

/-- `setANCOUNT`: big-endian `PutUint16` into bytes 6..7. -/
def Header.setANCOUNT (h : Header) (c : Nat) : Header :=
  { h with b6 := c / 256 % 256, b7 := c % 256 }

/-- `ANCOUNT() = BigEndian.Uint16(h.bytes[6:8])`. -/
def Header.ANCOUNT (h : Header) : Nat := h.b6 * 256 + h.b7

/-- QR bit read back from the RFC 1035 bit layout (bit 7 of byte 2; the Go
source has no `QR()` accessor, this reads the documented field). -/
def Header.QR (h : Header) : Nat := (h.b2 &&& 0b10000000) >>> 7

/-- AA bit (bit 2 of byte 2) read back from the RFC 1035 bit layout. -/
def Header.AA (h : Header) : Nat := (h.b2 &&& 0b00000100) >>> 2

/-- TC bit (bit 1 of byte 2) read back from the RFC 1035 bit layout. -/
def Header.TC (h : Header) : Nat := (h.b2 &&& 0b00000010) >>> 1

/-- RA bit (bit 7 of byte 3) read back from the RFC 1035 bit layout. -/
def Header.RA (h : Header) : Nat := (h.b3 &&& 0b10000000) >>> 7

/-- Z field (bits 4..6 of byte 3) read back from the RFC 1035 bit layout. -/
def Header.Z (h : Header) : Nat := (h.b3 &&& 0b01110000) >>> 4

/-- RCODE (low nibble of byte 3) read back from the RFC 1035 bit layout. -/
def Header.RCODE (h : Header) : Nat := h.b3 &&& 0b00001111

/-- NSCOUNT field, bytes 8..9 of the header (the Go source has no accessor;
this reads the RFC 1035 field from the raw bytes). -/
def Header.NSCOUNT (h : Header) : Nat := h.b8 * 256 + h.b9

/-- ARCOUNT field, bytes 10..11 of the header (the Go source has no accessor;
this reads the RFC 1035 field from the raw bytes). -/
def Header.ARCOUNT (h : Header) : Nat := h.b10 * 256 + h.b11

/-- Real headers hold bytes: every field is below 256.  Holds for every
header copied from a datagram. -/
def Header.Wf (h : Header) : Prop :=
  h.b0 < 256 ∧ h.b1 < 256 ∧ h.b2 < 256 ∧ h.b3 < 256 ∧ h.b4 < 256 ∧ h.b5 < 256 ∧
  h.b6 < 256 ∧ h.b7 < 256 ∧ h.b8 < 256 ∧ h.b9 < 256 ∧ h.b10 < 256 ∧ h.b11 < 256

instance (h : Header) : Decidable h.Wf := by
  unfold Header.Wf; infer_instance

/-- RFC 1035 4.1.2 question: `QNAME` is the decoded label list (each label a
byte string), `QTYPE`/`QCLASS` the raw 2-byte fields. -/
structure Question where
  QNAME : List (List Nat)
  QTYPE : List Nat
  QCLASS : List Nat
deriving DecidableEq, Repr

/-- `question.len()` of the Go source: `len(q.QNAME) + 4`.  Note `q.QNAME` is
a Go slice of strings, so `len` is the number of labels. -/
def Question.len (q : Question) : Nat := q.QNAME.length + 4

/-- `setType`: big-endian `PutUint16` into `QTYPE`. -/
def Question.setType (q : Question) (t : Nat) : Question :=
  { q with QTYPE := [t / 256 % 256, t % 256] }

/-- `setClass`: big-endian `PutUint16` into `QCLASS`. -/
def Question.setClass (q : Question) (c : Nat) : Question :=
  { q with QCLASS := [c / 256 % 256, c % 256] }

/-- RFC 1035 4.1.3 resource record: decoded name plus raw fixed-width fields
and opaque rdata. -/
structure RR where
  NAME : List (List Nat)
  TYPE : List Nat
  CLASS : List Nat
  TTL : List Nat
  RDLENGTH : List Nat
  RDATA : List Nat
deriving DecidableEq, Repr

/-- `RR.len()` of the Go source: `len(rr.NAME) + 10 + len(rr.RDATA)` —
`len(rr.NAME)` counts labels, not encoded bytes. -/
def RR.len (rr : RR) : Nat := rr.NAME.length + 10 + rr.RDATA.length

/-- The label position cache of the Go source: `labelMap` (label to offset)
and `positionMap` (offset to label).  Go map writes overwrite, which the
cons-plus-first-match lookup below reproduces. -/
structure LabelCache where
  labelMap : List (List Nat × Nat)
  positionMap : List (Nat × List Nat)
deriving DecidableEq, Repr

/-- The empty cache created at the top of `deserialize`. -/
def LabelCache.empty : LabelCache := ⟨[], []⟩

/-- The two map writes performed for each literal label in `decodeLabels`. -/
def LabelCache.insert (c : LabelCache) (label : List Nat) (pos : Nat) : LabelCache :=
  { labelMap := (label, pos) :: c.labelMap,
    positionMap := (pos, label) :: c.positionMap }

/-- Go map read `positionMap[head]`: first (most recent) binding wins. -/
def lookupPos (pm : List (Nat × List Nat)) (k : Nat) : Option (List Nat) :=
  match pm with
  | [] => none
  | (p, l) :: rest => if p = k then some l else lookupPos rest k

/-- Largest offset recorded in a position map (0 when empty); used to bound
the pointer-chasing loop of `allSubsequentLabels`. -/
def maxPos (pm : List (Nat × List Nat)) : Nat :=
  pm.foldr (fun p acc => max p.1 acc) 0

/-- The `allSubsequentLabels` chase with explicit fuel: while `positionMap`
has a label at `head`, collect it and advance `head` past it
(`head += len(label) + 1`). -/
def allSubLabelsFuel (pm : List (Nat × List Nat)) : Nat → Nat → List (List Nat)
  | 0, _ => []
  | fuel + 1, head =>
    match lookupPos pm head with
    | some label => label :: allSubLabelsFuel pm fuel (head + label.length + 1)
    | none => []

/-- `(*labelCache).allSubsequentLabels`: the Go loop is unbounded; the chain
only visits offsets no larger than `maxPos`, so fuel `maxPos + 1` realises
it (proved as the stabilisation theorem for claim C8). -/
def LabelCache.allSubsequentLabels (c : LabelCache) (head : Nat) : List (List Nat) :=
  allSubLabelsFuel c.positionMap (maxPos c.positionMap + 1) head

/-- `extractBytes`: `src[offset : offset+length]`, advancing the offset,
on a frame whose capacity equals its length (`cap = len`), so that the
slice expression panics past the frame end.  This is the exact-capacity
case of `extractBytesCap` below (`extractBytesCap_nil`); on a server frame
with spare capacity the general version applies. -/
def extractBytes (src : List Nat) (offset length : Nat) : Res (List Nat × Nat) :=
  if offset + length ≤ src.length then
    .ok ((src.drop offset).take length, offset + length)
  else .oob

/-- `extractUint16`: reads `src[offset]` and `src[offset+1]` (indexing past
the end is a panic), returning the raw 2-byte pair, the big-endian value,
and the advanced offset. -/
def extractUint16 (src : List Nat) (offset : Nat) : Res (List Nat × Nat × Nat) :=
  match src.get? offset, src.get? (offset + 1) with
  | some a, some b => .ok ([a, b], a * 256 + b, offset + 2)
  | _, _ => .oob

/-- `extractUint32`: reads four bytes by index, returning the raw bytes, the
big-endian value, and the advanced offset. -/
def extractUint32 (src : List Nat) (offset : Nat) : Res (List Nat × Nat × Nat) :=
  match src.get? offset, src.get? (offset + 1), src.get? (offset + 2), src.get? (offset + 3) with
  | some a, some b, some c, some d =>
    .ok ([a, b, c, d], ((a * 256 + b) * 256 + c) * 256 + d, offset + 4)
  | _, _, _, _ => .oob

/-- One step of the `decodeLabels` loop, with fuel.  At the cursor: byte 0
ends the name; byte exactly 192 is a compression pointer whose target is the
next byte (resolved through the cache, failing with the Go error when the
cache has no label there); any other byte is a literal label length, the
label is recorded in the cache and the loop continues.  Fuel 0 returns
`.oob`; fuel `frame.length + 1` is proved sufficient below, so the wrapper
`decodeLabels` agrees with Go's unbounded loop.  Like `extractBytes`, this
is the exact-capacity (`cap = len`) model; `decodeLabelsFuelCap` below
generalises the literal-label slice read to frames with spare capacity. -/
def decodeLabelsFuel (frame : List Nat) : Nat → Nat → LabelCache →
    Res (List (List Nat) × Nat × LabelCache)
  | 0, _, _ => .oob
  | fuel + 1, head, cache =>
    match frame.get? head with
    | none => .oob
    | some b =>
      if b = 0 then
        .ok ([], head + 1, cache)
      else if b = 192 then
        match frame.get? (head + 1) with
        | none => .oob
        | some p =>
          let referencedLabels := cache.allSubsequentLabels p
          if referencedLabels.length = 0 then .err "Invalid label reference"
          else .ok (referencedLabels, head + 2, cache)
      else
        if head + 1 + b ≤ frame.length then
          let label := (frame.drop (head + 1)).take b
          match decodeLabelsFuel frame fuel (head + 1 + b) (cache.insert label head) with
          | .ok (rest, head2, cache2) => .ok (label :: rest, head2, cache2)
          | .err e => .err e
          | .oob => .oob
        else .oob

/-- `decodeLabels` of the Go source (the loop advances the cursor by at least
2 per literal label, so `frame.length + 1` fuel is sufficient). -/
def decodeLabels (frame : List Nat) (head : Nat) (cache : LabelCache) :
    Res (List (List Nat) × Nat × LabelCache) :=
  decodeLabelsFuel frame (frame.length + 1) head cache

/-- The QUESTION loop of `deserialize`: decode `count` questions, threading
the cursor and cache. -/
def decodeQuestionsGo (frame : List Nat) : Nat → Nat → LabelCache →
    Res (List Question × Nat × LabelCache)
  | 0, head, cache => .ok ([], head, cache)
  | count + 1, head, cache =>
    match decodeLabels frame head cache with
    | .err e => .err e
    | .oob => .oob
    | .ok (labels, head1, cache1) =>
      match extractUint16 frame head1 with
      | .err e => .err e
      | .oob => .oob
      | .ok (qtype, _, head2) =>
        match extractUint16 frame head2 with
        | .err e => .err e
        | .oob => .oob
        | .ok (qclass, _, head3) =>
          match decodeQuestionsGo frame count head3 cache1 with
          | .ok (rest, head4, cache4) =>
            .ok ({ QNAME := labels, QTYPE := qtype, QCLASS := qclass } :: rest, head4, cache4)
          | .err e => .err e
          | .oob => .oob

/-- The ANSWER loop of `deserialize`: decode `count` resource records,
threading the cursor and cache.  `RDATA` is read with `extractBytes` using
the just-read `rdLength` value. -/
def decodeAnswersGo (frame : List Nat) : Nat → Nat → LabelCache →
    Res (List RR × Nat × LabelCache)
  | 0, head, cache => .ok ([], head, cache)
  | count + 1, head, cache =>
    match decodeLabels frame head cache with
    | .err e => .err e
    | .oob => .oob
    | .ok (labels, head1, cache1) =>
      match extractUint16 frame head1 with
      | .err e => .err e
      | .oob => .oob
      | .ok (ty, _, head2) =>
        match extractUint16 frame head2 with
        | .err e => .err e
        | .oob => .oob
        | .ok (cl, _, head3) =>
          match extractUint32 frame head3 with
          | .err e => .err e
          | .oob => .oob
          | .ok (ttl, _, head4) =>
            match extractUint16 frame head4 with
            | .err e => .err e
            | .oob => .oob
            | .ok (rdl, rdLength, head5) =>
              match extractBytes frame head5 rdLength with
              | .err e => .err e
              | .oob => .oob
              | .ok (rdata, head6) =>
                match decodeAnswersGo frame count head6 cache1 with
                | .ok (rest, head7, cache7) =>
                  .ok ({ NAME := labels, TYPE := ty, CLASS := cl, TTL := ttl,
                         RDLENGTH := rdl, RDATA := rdata } :: rest, head7, cache7)
                | .err e => .err e
                | .oob => .oob

/-- RFC 1035 4.1 message: header plus decoded sections.  The Go struct also
carries the label cache pointer; no claim inspects it, so it is threaded
inside `deserialize` instead.  Authority and additional sections are never
decoded nor serialized by this server. -/
structure Message where
  header : Header
  question : List Question
  answer : List RR
  authority : List RR := []
  additional : List RR := []
deriving DecidableEq, Repr

/-- `deserialize`: copy the header (error when fewer than 12 bytes were
copied), then decode `QDCOUNT` questions and `ANCOUNT` answers from offset
12 with one fresh cache.  Exact-capacity (`cap = len`) model of the frame;
`deserializeCap` below models the server's `buf[:size]` frames, and equals
this function when the spare region is empty (`deserializeCap_nil`). -/
def deserialize (frame : List Nat) : Res Message :=
  let header := Header.ofFrame frame
  if frame.length < 12 then .err "invalid DNS header"
  else
    match decodeQuestionsGo frame header.QDCOUNT 12 LabelCache.empty with
    | .err e => .err e
    | .oob => .oob
    | .ok (questions, head1, cache1) =>
      match decodeAnswersGo frame header.ANCOUNT head1 cache1 with
      | .err e => .err e
      | .oob => .oob
      | .ok (answers, _, _) =>
        .ok { header := header, question := questions, answer := answers }

/-- The per-label loop of `encodeLabelSequence`: emit a length byte followed
by the label bytes, failing on the first label longer than 63. -/
def encodeLabelsLoop : List (List Nat) → Res (List Nat)
  | [] => .ok []
  | label :: rest =>
    if 63 < label.length then .err "Max len of a label is 63."
    else
      match encodeLabelsLoop rest with
      | .ok bs => .ok (label.length :: (label ++ bs))
      | .err e => .err e
      | .oob => .oob

/-- `encodeLabelSequence`: the label loop, a zero terminator, and the 255-byte
total-length check. -/
def encodeLabelSequence (labels : List (List Nat)) : Res (List Nat) :=
  match encodeLabelsLoop labels with
  | .ok bs =>
    let seq := bs ++ [0]
    if 255 < seq.length then .err "Max len of a label seq is 255."
    else .ok seq
  | .err e => .err e
  | .oob => .oob

/-- The question half of `(*message).serialize`: encoded name, then the raw
`QTYPE` and `QCLASS` bytes, for each question in order. -/
def serializeQuestions : List Question → Res (List Nat)
  | [] => .ok []
  | q :: rest =>
    match encodeLabelSequence q.QNAME with
    | .err e => .err e
    | .oob => .oob
    | .ok els =>
      match serializeQuestions rest with
      | .ok bs => .ok (els ++ q.QTYPE ++ q.QCLASS ++ bs)
      | .err e => .err e
      | .oob => .oob

/-- The answer half of `(*message).serialize`: encoded name, then the raw
`TYPE`, `CLASS`, `TTL`, `RDLENGTH` and `RDATA` bytes, for each record. -/
def serializeAnswers : List RR → Res (List Nat)
  | [] => .ok []
  | a :: rest =>
    match encodeLabelSequence a.NAME with
    | .err e => .err e
    | .oob => .oob
    | .ok els =>
      match serializeAnswers rest with
      | .ok bs => .ok (els ++ a.TYPE ++ a.CLASS ++ a.TTL ++ a.RDLENGTH ++ a.RDATA ++ bs)
      | .err e => .err e
      | .oob => .oob

/-- `(*message).questionLen`: sum of `question.len()` (capacity pre-sizing
only — it never affects the produced bytes). -/
def Message.questionLen (m : Message) : Nat := (m.question.map Question.len).sum

/-- `(*message).answerLen`: sum of `RR.len()` (capacity pre-sizing only). -/
def Message.answerLen (m : Message) : Nat := (m.answer.map RR.len).sum

/-- `(*message).serialize`: header bytes, then each encoded question, then
each encoded answer.  The Go code pre-sizes the buffer with
`len(header.bytes) + questionLen() + answerLen()`; in Go that capacity hint
never changes the appended bytes, so it does not appear here (see claim C7
for its value). -/
def Message.serialize (m : Message) : Res (List Nat) :=
  match serializeQuestions m.question with
  | .err e => .err e
  | .oob => .oob
  | .ok qb =>
    match serializeAnswers m.answer with
    | .err e => .err e
    | .oob => .oob
    | .ok ab => .ok (m.header.toBytes ++ qb ++ ab)

/-- `createResponseMessage`: copy the request header bytes, OR-in QR, call the
OR-based setters for AA/TC/RA with 0, clear Z, set RCODE from the opcode,
copy `QDCOUNT` questions with type forced to A and class to IN, and set
`QDCOUNT` to the number copied.  Go indexes `initialMessage.question[i]` for
`i < QDCOUNT()`, which panics when the list is shorter — modelled as
`none`. -/
def createResponseMessage (initialMessage : Message) : Option Message :=
  if initialMessage.header.QDCOUNT ≤ initialMessage.question.length then
    let header1 :=
      ((((initialMessage.header.setQR 1).setAA 0).setTC 0).setRA 0).setZ 0
    let header2 :=
      if initialMessage.header.OPCODE = 0 then header1.setRCODE 0
      else header1.setRCODE 4
    let questions :=
      (initialMessage.question.take initialMessage.header.QDCOUNT).map
        (fun q => { QNAME := q.QNAME, QTYPE := [0, 1], QCLASS := [0, 1] })
    let header3 := header2.setQDCOUNT (questions.length % 65536)
    some { header := header3, question := questions, answer := [] }
  else none

/-- `(*message).addStaticAnswer`: for each of the first `QDCOUNT` questions
append an A/IN record with TTL 60 and rdata 8.8.8.8, then set `ANCOUNT` to
the answer count.  Indexing past the question list is a panic (`none`). -/
def addStaticAnswer (m : Message) : Option Message :=
  if m.header.QDCOUNT ≤ m.question.length then
    let newAnswers :=
      (m.question.take m.header.QDCOUNT).map
        (fun q => ({ NAME := q.QNAME, TYPE := [0, 1], CLASS := [0, 1],
                     TTL := [0, 0, 0, 60], RDLENGTH := [0, 4],
                     RDATA := [8, 8, 8, 8] } : RR))
    let answer2 := m.answer ++ newAnswers
    some { m with answer := answer2,
                  header := m.header.setANCOUNT (answer2.length % 65536) }
  else none

/-- The static-mode response pipeline of the server loop:
`createResponseMessage` followed by `addStaticAnswer`. -/
def staticModeResponse (req : Message) : Option Message :=
  (createResponseMessage req).bind addStaticAnswer

/-- The forwarding-mode epilogue of the server loop: install the accumulated
answers and set `ANCOUNT` to their number (`uint16` cast). -/
def setForwardAnswers (m : Message) (answers : List RR) : Message :=
  { m with answer := answers,
           header := m.header.setANCOUNT (answers.length % 65536) }

/-- The one-question upstream query built inside `forwardResolve`: a fresh
zero header with the randomized id, `QR=0`, the OR-based zero setters,
`RD=1`, `Z=0`, `QDCOUNT=1`, and exactly the one question. -/
def buildUpstreamQuery (id : Nat) (q : Question) : Message :=
  let h := (((((((Header.new.setId id).setQR 0).setAA 0).setTC 0).setRA 0).setRD
      1).setZ 0).setQDCOUNT 1
  { header := h, question := [q], answer := [] }

/-- `forwardResolve` over an abstract transport: `ids` supplies the random
transaction id for each exchange, `replies` the upstream datagrams in order
(an exhausted reply list is a read failure).  Returns the datagrams written
upstream together with the Go result; on error Go returns the partial answer
slice alongside the error, which every caller discards, so the error carries
no answers here. -/
def forwardResolveGo : List Question → (Nat → Nat) → List (List Nat) →
    List (List Nat) × Res (List RR)
  | [], _, _ => ([], .ok [])
  | q :: qs, ids, replies =>
    match (buildUpstreamQuery (ids 0) q).serialize with
    | .err e => ([], .err e)
    | .oob => ([], .oob)
    | .ok dgram =>
      match replies with
      | [] => ([dgram], .err "Failed to read response from resolver")
      | r :: rs =>
        match deserialize r with
        | .err _ => ([dgram], .err "Failed to parse response from resolver")
        | .oob => ([dgram], .oob)
        | .ok resolverResponse =>
          match forwardResolveGo qs (fun i => ids (i + 1)) rs with
          | (sent, .ok answers) =>
            (dgram :: sent, .ok (resolverResponse.answer ++ answers))
          | (sent, .err e) => (dgram :: sent, .err e)
          | (sent, .oob) => (dgram :: sent, .oob)

/-- The per-question byte block emitted by `encodeLabelSequence` before the
terminator: a length byte then the label bytes, per label. -/
def labelsBytes : List (List Nat) → List Nat
  | [] => []
  | l :: rest => l.length :: (l ++ labelsBytes rest)

/-- Byte length of the wire form of a name: `sum (1 + len label) + 1`. -/
def encodedNameLen (name : List (List Nat)) : Nat :=
  (name.map (fun l => l.length + 1)).sum + 1

/-- A question as produced by decoding real traffic: labels of 1..63 bytes,
wire form of the name at most 255 bytes, 2-byte type and class fields. -/
def ValidQuestion (q : Question) : Prop :=
  (∀ l ∈ q.QNAME, 1 ≤ l.length ∧ l.length ≤ 63) ∧
  encodedNameLen q.QNAME ≤ 255 ∧
  q.QTYPE.length = 2 ∧ q.QCLASS.length = 2

/-- A resource record as produced by decoding real traffic; the 2-byte
`RDLENGTH` field holds the big-endian length of `RDATA`. -/
def ValidRR (a : RR) : Prop :=
  (∀ l ∈ a.NAME, 1 ≤ l.length ∧ l.length ≤ 63) ∧
  encodedNameLen a.NAME ≤ 255 ∧
  a.TYPE.length = 2 ∧ a.CLASS.length = 2 ∧ a.TTL.length = 4 ∧
  a.RDLENGTH.length = 2 ∧
  a.RDLENGTH.getD 0 0 * 256 + a.RDLENGTH.getD 1 0 = a.RDATA.length

/-- A valid message in the sense of claim C2: counts match the section
lists, every entry is wire-valid, authority and additional are empty. -/
def ValidMessage (m : Message) : Prop :=
  m.header.QDCOUNT = m.question.length ∧
  m.header.ANCOUNT = m.answer.length ∧
  (∀ q ∈ m.question, ValidQuestion q) ∧
  (∀ a ∈ m.answer, ValidRR a) ∧
  m.authority = [] ∧ m.additional = []

instance (q : Question) : Decidable (ValidQuestion q) := by
  unfold ValidQuestion; infer_instance

instance (a : RR) : Decidable (ValidRR a) := by
  unfold ValidRR; infer_instance

instance (m : Message) : Decidable (ValidMessage m) := by
  unfold ValidMessage; infer_instance

/-! ## List indexing helpers -/

/-- Reading past a prefix of an append reads the suffix. -/
theorem get?_append_add (pre l : List Nat) (i : Nat) :
    (pre ++ l).get? (pre.length + i) = l.get? i := by
  rw [List.get?_append_right (by omega)]
  congr 1
  omega

/-- Reading exactly at the end of a prefix finds the next element. -/
theorem get?_append_here (pre : List Nat) (x : Nat) (suf : List Nat) :
    (pre ++ x :: suf).get? pre.length = some x := by
  have h := get?_append_add pre (x :: suf) 0
  simpa using h

/-- `extractUint16` on bytes laid out after a prefix returns the two raw
bytes, their big-endian value, and the cursor moved by 2. -/
theorem extractUint16_append (pre : List Nat) (a b : Nat) (suf : List Nat) :
    extractUint16 (pre ++ a :: b :: suf) pre.length =
      .ok ([a, b], a * 256 + b, pre.length + 2) := by
  unfold extractUint16
  rw [get?_append_here]
  have h1 : (pre ++ a :: b :: suf).get? (pre.length + 1) = some b := by
    have h := get?_append_add pre (a :: b :: suf) 1
    simpa using h
  rw [h1]

/-- `extractUint32` on bytes laid out after a prefix. -/
theorem extractUint32_append (pre : List Nat) (a b c d : Nat) (suf : List Nat) :
    extractUint32 (pre ++ a :: b :: c :: d :: suf) pre.length =
      .ok ([a, b, c, d], ((a * 256 + b) * 256 + c) * 256 + d, pre.length + 4) := by
  unfold extractUint32
  rw [get?_append_here]
  have h1 : (pre ++ a :: b :: c :: d :: suf).get? (pre.length + 1) = some b := by
    have h := get?_append_add pre (a :: b :: c :: d :: suf) 1
    simpa using h
  have h2 : (pre ++ a :: b :: c :: d :: suf).get? (pre.length + 2) = some c := by
    have h := get?_append_add pre (a :: b :: c :: d :: suf) 2
    simpa using h
  have h3 : (pre ++ a :: b :: c :: d :: suf).get? (pre.length + 3) = some d := by
    have h := get?_append_add pre (a :: b :: c :: d :: suf) 3
    simpa using h
  rw [h1, h2, h3]

/-- `extractBytes` on a block laid out after a prefix returns the block. -/
theorem extractBytes_append (pre data suf : List Nat) :
    extractBytes (pre ++ (data ++ suf)) pre.length data.length =
      .ok (data, pre.length + data.length) := by
  unfold extractBytes
  have hlen : pre.length + data.length ≤ (pre ++ (data ++ suf)).length := by
    simp only [List.length_append]; omega
  rw [if_pos hlen, List.drop_left, List.take_left]

/-! ## Fuel-stabilisation for the decodeLabels loop -/

/-- With the cursor at or past the end of the frame, the `decodeLabels` loop
panics regardless of the fuel (`frame[*head]` is an out-of-range index). -/
theorem decodeLabelsFuel_oob (frame : List Nat) (fuel head : Nat) (cache : LabelCache)
    (h : frame.length ≤ head) : decodeLabelsFuel frame fuel head cache = .oob := by
  cases fuel with
  | zero => rfl
  | succ f =>
    simp only [decodeLabelsFuel]
    rw [List.get?_eq_none.mpr h]

/-- The fuelled `decodeLabels` loop is independent of the fuel once the fuel
covers the remaining frame: the cursor advances by at least 2 per literal
label, so the wrapper fuel `frame.length + 1` realises Go's unbounded
loop. -/
theorem decodeLabelsFuel_congr (frame : List Nat) :
    ∀ fuel1 fuel2 head cache,
      frame.length + 1 ≤ head + fuel1 → frame.length + 1 ≤ head + fuel2 →
      decodeLabelsFuel frame fuel1 head cache = decodeLabelsFuel frame fuel2 head cache := by
  intro fuel1
  induction fuel1 with
  | zero =>
    intro fuel2 head cache h1 h2
    rw [decodeLabelsFuel_oob frame 0 head cache (by omega),
        decodeLabelsFuel_oob frame fuel2 head cache (by omega)]
  | succ f ih =>
    intro fuel2 head cache h1 h2
    cases fuel2 with
    | zero =>
      rw [decodeLabelsFuel_oob frame (f + 1) head cache (by omega),
          decodeLabelsFuel_oob frame 0 head cache (by omega)]
    | succ f2 =>
      simp only [decodeLabelsFuel]
      cases hget : frame.get? head with
      | none => rfl
      | some b =>
        by_cases hb0 : b = 0
        · simp [hb0]
        · by_cases hb192 : b = 192
          · simp [hb0, hb192]
          · simp only [hb0, hb192, if_neg, if_false]
            by_cases hlen : head + 1 + b ≤ frame.length
            · rw [if_pos hlen, if_pos hlen]
              rw [ih f2 (head + 1 + b) _ (by omega) (by omega)]
            · rw [if_neg hlen, if_neg hlen]

/-! ## Bounded bit-arithmetic facts used for the header bit fields -/

/-- OR-ing the QR bit in sets the QR read-back to 1, for any request byte. -/
theorem bitQR_set : ∀ b < 256, ((b ||| 128) &&& 128) >>> 7 = 1 := by decide

/-- OR-ing the QR bit in does not change the AA bit. -/
theorem bitAA_keep : ∀ b < 256, ((b ||| 128) &&& 4) >>> 2 = (b &&& 4) >>> 2 := by decide

/-- OR-ing the QR bit in does not change the TC bit. -/
theorem bitTC_keep : ∀ b < 256, ((b ||| 128) &&& 2) >>> 1 = (b &&& 2) >>> 1 := by decide

/-- Clearing Z then masking in RCODE 0 leaves the RA bit unchanged. -/
theorem bitRA_keep0 : ∀ b < 256,
    (b &&& 143 &&& 240 &&& 128) >>> 7 = (b &&& 128) >>> 7 := by decide

/-- Clearing Z then masking in RCODE 0 leaves Z equal to 0. -/
theorem bitZ_zero0 : ∀ b < 256, (b &&& 143 &&& 240 &&& 112) >>> 4 = 0 := by decide

/-- Clearing Z then masking in RCODE 0 makes RCODE read back as 0. -/
theorem bitRCODE_set0 : ∀ b < 256, b &&& 143 &&& 240 &&& 15 = 0 := by decide

/-- Clearing Z then masking in RCODE 4 leaves the RA bit unchanged. -/
theorem bitRA_keep4 : ∀ b < 256,
    ((b &&& 143 &&& 240 ||| 4) &&& 128) >>> 7 = (b &&& 128) >>> 7 := by decide

/-- Clearing Z then masking in RCODE 4 leaves Z equal to 0. -/
theorem bitZ_zero4 : ∀ b < 256, ((b &&& 143 &&& 240 ||| 4) &&& 112) >>> 4 = 0 := by decide

/-- Clearing Z then masking in RCODE 4 makes RCODE read back as 4. -/
theorem bitRCODE_set4 : ∀ b < 256, (b &&& 143 &&& 240 ||| 4) &&& 15 = 4 := by decide

/-! ## Claim C6 -/

/-- A frame whose first byte is 193 (both high bits set but not exactly 192)
followed by 193 content bytes and a terminator. -/
def frame6 : List Nat := 193 :: (List.replicate 193 97 ++ [0])

/-- C6 counterexample: at a cursor byte of 193 (≥ 192), `decodeLabels` does
not treat the byte as the first byte of a 2-byte compression pointer — a
pointer would resolve the second byte against the (empty) cache and fail
with `Invalid label reference`, consuming 2 bytes.  Instead the code (which
compares `frame[*head] == 192` exactly) reads it as a literal label length
and returns a 193-byte label, consuming 195 bytes. -/
theorem C6_counterexample :
    decodeLabels frame6 0 LabelCache.empty =
      Res.ok ([List.replicate 193 97], 195,
        { labelMap := [(List.replicate 193 97, 0)],
          positionMap := [(0, List.replicate 193 97)] }) := by decide

/-- C6 amended: only the exact byte value 192 begins a compression pointer;
any cursor byte strictly greater than 192 is treated as a literal label
length — decoding reads that many content bytes as a label, records it in
the cache, and continues after it. -/
theorem C6_amended (frame : List Nat) (head : Nat) (cache : LabelCache) (b : Nat)
    (hb : frame.get? head = some b) (h192 : 192 < b)
    (hlen : head + 1 + b ≤ frame.length) :
    decodeLabels frame head cache =
      (match decodeLabels frame (head + 1 + b)
          (cache.insert ((frame.drop (head + 1)).take b) head) with
       | .ok (rest, head2, cache2) =>
           Res.ok (((frame.drop (head + 1)).take b) :: rest, head2, cache2)
       | .err e => Res.err e
       | .oob => Res.oob) := by
  rw [show decodeLabels frame head cache =
      decodeLabelsFuel frame (frame.length + 1) head cache from rfl]
  simp only [decodeLabelsFuel, hb]
  rw [if_neg (by omega), if_neg (by omega), if_pos hlen]
  rw [decodeLabelsFuel_congr frame frame.length (frame.length + 1) (head + 1 + b) _
      (by omega) (by omega)]
  rfl

/-- C6 witness: the amended claim instantiated at `frame6`, cursor 0, empty
cache, literal byte 193. -/
theorem C6_amended_witness :
    decodeLabels frame6 0 LabelCache.empty =
      (match decodeLabels frame6 (0 + 1 + 193)
          (LabelCache.empty.insert ((frame6.drop (0 + 1)).take 193) 0) with
       | .ok (rest, head2, cache2) =>
           Res.ok (((frame6.drop (0 + 1)).take 193) :: rest, head2, cache2)
       | .err e => Res.err e
       | .oob => Res.oob) :=
  C6_amended frame6 0 LabelCache.empty 193 (by decide) (by decide) (by decide)

/-! ## Claim C7 -/

/-- A question whose name is the single 2-byte label `ab`. -/
def exQ7 : Question := { QNAME := [[97, 98]], QTYPE := [0, 1], QCLASS := [0, 1] }

/-- A record with the same name and a 3-byte rdata. -/
def exRR7 : RR :=
  { NAME := [[97, 98]], TYPE := [0, 1], CLASS := [0, 1], TTL := [0, 0, 0, 60],
    RDLENGTH := [0, 3], RDATA := [1, 2, 3] }

/-- A message holding `exQ7` and `exRR7`. -/
def exM7 : Message := { header := Header.new, question := [exQ7], answer := [exRR7] }

/-- C7 divergence: `question.len()` returns `len(QNAME) + 4` where `QNAME`
is a slice of label strings, so it counts labels, not encoded bytes — for
the name `ab` it returns 5 while the encoded question occupies 8 bytes;
likewise `RR.len()` returns 14 while the encoded record occupies 17 bytes.
Hence the capacity `serialize` precomputes (31 for `exM7`) is smaller than
the 37 bytes produced, contradicting the claim. -/
theorem C7_divergence :
    exQ7.len = 5 ∧
    serializeQuestions [exQ7] = Res.ok [2, 97, 98, 0, 0, 1, 0, 1] ∧
    exRR7.len = 14 ∧
    serializeAnswers [exRR7] =
      Res.ok [2, 97, 98, 0, 0, 1, 0, 1, 0, 0, 0, 60, 0, 3, 1, 2, 3] ∧
    12 + exM7.questionLen + exM7.answerLen = 31 ∧
    (exM7.serialize).toOption.map List.length = some 37 := by decide

/-! ## Claim C10 -/

/-- A frame declaring one question whose name is a single 64-byte label. -/
def frame10 : List Nat :=
  [0, 0, 0, 0, 0, 1, 0, 0, 0, 0, 0, 0] ++ (64 :: List.replicate 64 97) ++
  [0] ++ [0, 1, 0, 1]

/-- The message `deserialize` produces from `frame10`. -/
def msg10 : Message :=
  { header := { Header.new with b5 := 1 },
    question := [{ QNAME := [List.replicate 64 97], QTYPE := [0, 1],
                   QCLASS := [0, 1] }],
    answer := [] }

/-- C10: the decoder accepts a frame containing a 64-byte label (length
bytes 1..191 other than 0 are all read as literal lengths, with no 63-byte
limit), producing a message that the encoder then rejects: `serialize` on
the successfully decoded message fails with the `LabelTooLong` error, so a
relayed name like this makes the response unserializable. -/
theorem C10_decoder_accepts_encoder_rejects :
    deserialize frame10 = Res.ok msg10 ∧
    (∃ q ∈ msg10.question, ∃ l ∈ q.QNAME, 63 < l.length) ∧
    msg10.serialize = Res.err "Max len of a label is 63." := by decide

/-! ## Claim C4, counterexample -/

/-- A request whose header has AA and TC set (byte 2 = 6) and RA plus all Z
bits set (byte 3 = 240), with no questions. -/
def req4 : Message :=
  { header := { Header.new with b2 := 6, b3 := 240 }, question := [], answer := [] }

/-- C4 counterexample: the response built from `req4` keeps AA = 1, TC = 1
and RA = 1 (the OR-based setters called with 0 cannot clear bits), so the
claim that the skeleton forces AA, TC and RA to zero is false; only Z is
actually cleared. -/
theorem C4_counterexample :
    (createResponseMessage req4).map
      (fun r => (r.header.AA, r.header.TC, r.header.RA, r.header.Z)) =
      some (1, 1, 1, 0) := by decide

/-! ## Claim C5, counterexample -/

/-- A request whose header has NSCOUNT = 1 (byte 9 = 1) and no questions. -/
def req5 : Message :=
  { header := { Header.new with b9 := 1 }, question := [], answer := [] }

/-- C5 counterexample: the static-mode response built from `req5` carries
NSCOUNT = 1 in its header (bytes 8..11 are copied from the request and never
reset), yet its serialized form is exactly the 12 header bytes — zero
authority entries are serialized — so the claim that NSCOUNT equals the
number of serialized authority entries is false at this input. -/
theorem C5_counterexample :
    (staticModeResponse req5).map (fun r => r.header.NSCOUNT) = some 1 ∧
    ((staticModeResponse req5).bind (fun r => r.serialize.toOption)).map
      List.length = some 12 := by decide

/-- Shift arithmetic fact used when reducing the `setQR 1` byte update. -/
theorem shift17 : (1 : Nat) <<< 7 % 256 = 128 := by norm_num [Nat.shiftLeft_eq]

/-! ## Claim C3 -/

/-- C3: for every decoded request (header bytes below 256, question list at
least `QDCOUNT` long, as `deserialize` guarantees) whose OPCODE is QUERY
(0), the response built by `createResponseMessage` has QR = 1, RCODE = 0 and
`QDCOUNT` equal to the request's `QDCOUNT`; for any other OPCODE the
response's RCODE is 4, regardless of the request's RCODE bits (`setRCODE`
masks the nibble out before OR-ing the code in). -/
theorem C3_response_header (m r : Message) (hwf : m.header.Wf)
    (hr : createResponseMessage m = some r) :
    (m.header.OPCODE = 0 → r.header.QR = 1 ∧ r.header.RCODE = 0 ∧
      r.header.QDCOUNT = m.header.QDCOUNT) ∧
    (m.header.OPCODE ≠ 0 → r.header.RCODE = 4) := by
  obtain ⟨hb0, hb1, hb2, hb3, hb4, hb5, hrest⟩ := hwf
  unfold createResponseMessage at hr
  split at hr
  case isFalse => exact Option.noConfusion hr
  case isTrue hq =>
    simp only [Option.some.injEq] at hr
    subst hr
    constructor
    · intro hop
      simp only [hop, if_pos, if_true]
      simp only [Header.QR, Header.RCODE, Header.QDCOUNT, Header.setQDCOUNT,
        Header.setRCODE, Header.setZ, Header.setRA, Header.setTC, Header.setAA,
        Header.setQR]
      norm_num
      rw [shift17]
      refine ⟨bitQR_set m.header.b2 hb2, bitRCODE_set0 m.header.b3 hb3, ?qd⟩
      have hq2 : m.header.b4 * 256 + m.header.b5 ≤ m.question.length := hq
      rw [inf_eq_left.mpr hq2]
      omega
    · intro hop
      simp only [hop, if_neg, if_false]
      simp only [Header.RCODE, Header.setQDCOUNT, Header.setRCODE, Header.setZ,
        Header.setRA, Header.setTC, Header.setAA, Header.setQR]
      norm_num
      exact bitRCODE_set4 m.header.b3 hb3

/-- A one-question QUERY request for the C3 witness. -/
def m3w : Message :=
  { header := { Header.new with b5 := 1 },
    question := [{ QNAME := [[97]], QTYPE := [0, 9], QCLASS := [0, 9] }],
    answer := [] }

/-- The response `createResponseMessage` builds from `m3w`. -/
def r3w : Message :=
  { header := { Header.new with b2 := 128, b5 := 1 },
    question := [{ QNAME := [[97]], QTYPE := [0, 1], QCLASS := [0, 1] }],
    answer := [] }

/-- C3 witness: the theorem instantiated at the concrete QUERY request. -/
theorem C3_response_header_witness :
    (m3w.header.OPCODE = 0 → r3w.header.QR = 1 ∧ r3w.header.RCODE = 0 ∧
      r3w.header.QDCOUNT = m3w.header.QDCOUNT) ∧
    (m3w.header.OPCODE ≠ 0 → r3w.header.RCODE = 4) :=
  C3_response_header m3w r3w (by decide) (by decide)

/-! ## Claim C4, amended -/

/-- C4 amended: `createResponseMessage` copies the request header and calls
`setAA(0)`, `setTC(0)`, `setRA(0)` — OR-based setters that cannot clear a
set bit — so the response's AA, TC and RA bits equal the request's bits
(zero only when the request's are zero); `setZ(0)` does mask, so Z is always
forced to 0. -/
theorem C4_amended (m r : Message) (h2 : m.header.b2 < 256) (h3 : m.header.b3 < 256)
    (hr : createResponseMessage m = some r) :
    r.header.AA = m.header.AA ∧ r.header.TC = m.header.TC ∧
    r.header.RA = m.header.RA ∧ r.header.Z = 0 := by
  unfold createResponseMessage at hr
  split at hr
  case isFalse => exact Option.noConfusion hr
  case isTrue hq =>
    simp only [Option.some.injEq] at hr
    subst hr
    by_cases hop : m.header.OPCODE = 0
    · simp only [hop, if_pos, if_true]
      simp only [Header.AA, Header.TC, Header.RA, Header.Z, Header.setQDCOUNT,
        Header.setRCODE, Header.setZ, Header.setRA, Header.setTC, Header.setAA,
        Header.setQR]
      norm_num
      rw [shift17]
      refine ⟨bitAA_keep m.header.b2 h2, bitTC_keep m.header.b2 h2,
        bitRA_keep0 m.header.b3 h3, bitZ_zero0 m.header.b3 h3⟩
    · simp only [hop, if_neg, if_false]
      simp only [Header.AA, Header.TC, Header.RA, Header.Z, Header.setQDCOUNT,
        Header.setRCODE, Header.setZ, Header.setRA, Header.setTC, Header.setAA,
        Header.setQR]
      norm_num
      rw [shift17, show (4 : Nat) &&& 15 = 4 from rfl]
      refine ⟨bitAA_keep m.header.b2 h2, bitTC_keep m.header.b2 h2,
        bitRA_keep4 m.header.b3 h3, bitZ_zero4 m.header.b3 h3⟩

/-- The response `createResponseMessage` builds from `req4`. -/
def resp4 : Message :=
  { header := { Header.new with b2 := 134, b3 := 128 }, question := [], answer := [] }

/-- C4 witness: the amended claim at the concrete request with AA, TC, RA
and Z all set. -/
theorem C4_amended_witness :
    resp4.header.AA = req4.header.AA ∧ resp4.header.TC = req4.header.TC ∧
    resp4.header.RA = req4.header.RA ∧ resp4.header.Z = 0 :=
  C4_amended req4 resp4 (by decide) (by decide) (by decide)

/-! ## Claim C5, amended -/

/-- Field-level description of `createResponseMessage`: the question list is
the first `QDCOUNT` request questions, the answer list is empty, bytes 4..5
hold the copied-question count, and bytes 6..11 pass through from the
request header. -/
theorem createResponse_spec (m r : Message) (hr : createResponseMessage m = some r) :
    r.question.length = min m.header.QDCOUNT m.question.length ∧
    r.answer = [] ∧
    r.header.b4 = r.question.length % 65536 / 256 % 256 ∧
    r.header.b5 = r.question.length % 65536 % 256 ∧
    r.header.b6 = m.header.b6 ∧ r.header.b7 = m.header.b7 ∧
    r.header.b8 = m.header.b8 ∧ r.header.b9 = m.header.b9 ∧
    r.header.b10 = m.header.b10 ∧ r.header.b11 = m.header.b11 := by
  unfold createResponseMessage at hr
  split at hr
  case isFalse => exact Option.noConfusion hr
  case isTrue hq =>
    simp only [Option.some.injEq] at hr
    subst hr
    by_cases hop : m.header.OPCODE = 0 <;>
      simp [hop, Header.setQDCOUNT, Header.setRCODE, Header.setZ, Header.setRA,
        Header.setTC, Header.setAA, Header.setQR]

/-- Field-level description of `addStaticAnswer`: one A/IN record is
appended per copied question, bytes 6..7 hold the new answer count, and all
other header bytes pass through. -/
theorem addStatic_spec (m r : Message) (hr : addStaticAnswer m = some r) :
    r.question = m.question ∧
    r.answer.length = m.answer.length + min m.header.QDCOUNT m.question.length ∧
    r.header.b4 = m.header.b4 ∧ r.header.b5 = m.header.b5 ∧
    r.header.b6 = r.answer.length % 65536 / 256 % 256 ∧
    r.header.b7 = r.answer.length % 65536 % 256 ∧
    r.header.b8 = m.header.b8 ∧ r.header.b9 = m.header.b9 ∧
    r.header.b10 = m.header.b10 ∧ r.header.b11 = m.header.b11 := by
  unfold addStaticAnswer at hr
  split at hr
  case isFalse => exact Option.noConfusion hr
  case isTrue hq =>
    simp only [Option.some.injEq] at hr
    subst hr
    simp [Header.setANCOUNT]

/-- C5 amended: for every serialized message the header's QDCOUNT and
ANCOUNT equal the number of question and answer entries serialized; NSCOUNT
and ARCOUNT, however, are copied unchanged from the request header (bytes
8..11 are never reset), so they equal the zero serialized
authority/additional counts only when the request's NSCOUNT and ARCOUNT are
zero — stated here for the static-mode response, the forwarding-mode
response, and the one-question upstream queries, under that extra
hypothesis. -/
theorem C5_amended (m : Message) (hwf : m.header.Wf)
    (hq : m.header.QDCOUNT ≤ m.question.length)
    (h8 : m.header.b8 = 0) (h9 : m.header.b9 = 0)
    (h10 : m.header.b10 = 0) (h11 : m.header.b11 = 0) :
    (∀ r, staticModeResponse m = some r →
      r.header.QDCOUNT = r.question.length ∧ r.header.ANCOUNT = r.answer.length ∧
      r.header.NSCOUNT = 0 ∧ r.header.ARCOUNT = 0) ∧
    (∀ r ans, createResponseMessage m = some r → ans.length < 65536 →
      (setForwardAnswers r ans).header.QDCOUNT = (setForwardAnswers r ans).question.length ∧
      (setForwardAnswers r ans).header.ANCOUNT = (setForwardAnswers r ans).answer.length ∧
      (setForwardAnswers r ans).header.NSCOUNT = 0 ∧
      (setForwardAnswers r ans).header.ARCOUNT = 0) ∧
    (∀ id q, (buildUpstreamQuery id q).header.QDCOUNT =
        (buildUpstreamQuery id q).question.length ∧
      (buildUpstreamQuery id q).header.ANCOUNT =
        (buildUpstreamQuery id q).answer.length ∧
      (buildUpstreamQuery id q).header.NSCOUNT = 0 ∧
      (buildUpstreamQuery id q).header.ARCOUNT = 0) := by
  obtain ⟨hb0, hb1, hb2, hb3, hb4, hb5, hb6, hb7, hrest⟩ := hwf
  have hq2 : m.header.b4 * 256 + m.header.b5 ≤ m.question.length := hq
  refine ⟨?static, ?fwd, ?upstream⟩
  case static =>
    intro r hsr
    rw [staticModeResponse, Option.bind_eq_some] at hsr
    obtain ⟨r1, hcr, has⟩ := hsr
    obtain ⟨c1, c2, c3, c4, c5, c6, c7, c8, c9, c10⟩ := createResponse_spec m r1 hcr
    obtain ⟨a1, a2, a3, a4, a5, a6, a7, a8, a9, a10⟩ := addStatic_spec r1 r has
    rw [min_eq_left hq] at c1
    have hQDm : m.header.QDCOUNT = m.header.b4 * 256 + m.header.b5 := rfl
    have hr1qd : r1.header.QDCOUNT = r1.header.b4 * 256 + r1.header.b5 := rfl
    have hmin : min r1.header.QDCOUNT r1.question.length = r1.question.length := by
      rw [hr1qd, c3, c4, c1]
      have : m.header.QDCOUNT < 65536 := by rw [hQDm]; omega
      omega
    rw [hmin, c2] at a2
    simp only [List.length_nil, Nat.zero_add] at a2
    constructor
    · show r.header.b4 * 256 + r.header.b5 = r.question.length
      rw [a3, a4, a1, c3, c4, c1]
      have : m.header.QDCOUNT < 65536 := by rw [hQDm]; omega
      omega
    constructor
    · show r.header.b6 * 256 + r.header.b7 = r.answer.length
      rw [a5, a6]
      have : r.answer.length < 65536 := by
        rw [a2, c1, hQDm]; omega
      omega
    constructor
    · show r.header.b8 * 256 + r.header.b9 = 0
      rw [a7, a8, c7, c8, h8, h9]
    · show r.header.b10 * 256 + r.header.b11 = 0
      rw [a9, a10, c9, c10, h10, h11]
  case fwd =>
    intro r ans hcr hlt
    obtain ⟨c1, c2, c3, c4, c5, c6, c7, c8, c9, c10⟩ := createResponse_spec m r hcr
    rw [min_eq_left hq] at c1
    have hQDm : m.header.QDCOUNT = m.header.b4 * 256 + m.header.b5 := rfl
    refine ⟨?_, ?_, ?_, ?_⟩
    · show r.header.b4 * 256 + r.header.b5 = r.question.length
      rw [c3, c4, c1]
      have : m.header.QDCOUNT < 65536 := by rw [hQDm]; omega
      omega
    · show (ans.length % 65536) / 256 % 256 * 256 + (ans.length % 65536) % 256 = ans.length
      omega
    · show r.header.b8 * 256 + r.header.b9 = 0
      rw [c7, c8, h8, h9]
    · show r.header.b10 * 256 + r.header.b11 = 0
      rw [c9, c10, h10, h11]
  case upstream =>
    intro id q
    refine ⟨rfl, rfl, rfl, rfl⟩

/-- A one-question request with NSCOUNT = ARCOUNT = 0, for the C5 witness. -/
def m5w : Message :=
  { header := { Header.new with b5 := 1 },
    question := [{ QNAME := [[97]], QTYPE := [0, 1], QCLASS := [0, 1] }],
    answer := [] }

/-- The static-mode response built from `m5w`. -/
def r5w : Message :=
  { header := { Header.new with b2 := 128, b5 := 1, b7 := 1 },
    question := [{ QNAME := [[97]], QTYPE := [0, 1], QCLASS := [0, 1] }],
    answer := [{ NAME := [[97]], TYPE := [0, 1], CLASS := [0, 1],
                 TTL := [0, 0, 0, 60], RDLENGTH := [0, 4], RDATA := [8, 8, 8, 8] }] }

/-- C5 witness: the static-mode conjunct of the amended claim at `m5w`. -/
theorem C5_amended_witness :
    r5w.header.QDCOUNT = r5w.question.length ∧
    r5w.header.ANCOUNT = r5w.answer.length ∧
    r5w.header.NSCOUNT = 0 ∧ r5w.header.ARCOUNT = 0 :=
  (C5_amended m5w (by decide) (by decide) rfl rfl rfl rfl).1 r5w (by decide)

/-! ## Claim C8 -/

/-- A successful position-map lookup only ever finds recorded offsets, all
of which are at most `maxPos`. -/
theorem lookupPos_le_maxPos (pm : List (Nat × List Nat)) (k : Nat) (l : List Nat)
    (h : lookupPos pm k = some l) : k ≤ maxPos pm := by
  induction pm with
  | nil => exact Option.noConfusion h
  | cons p rest ih =>
    unfold lookupPos at h
    unfold maxPos
    simp only [List.foldr_cons]
    by_cases hk : p.1 = k
    · omega
    · rw [if_neg hk] at h
      have := ih h
      unfold maxPos at this
      omega

/-- Past the largest recorded offset every lookup misses. -/
theorem lookupPos_none_of_big (pm : List (Nat × List Nat)) (k : Nat)
    (h : maxPos pm < k) : lookupPos pm k = none := by
  cases hl : lookupPos pm k with
  | none => rfl
  | some l => exact absurd (lookupPos_le_maxPos pm k l hl) (by omega)

/-- The fuelled `allSubsequentLabels` chase is independent of the fuel once
the fuel covers the offsets recorded in the map: every hit strictly
increases the visited offset, and no offset beyond `maxPos` can hit. -/
theorem allSubLabelsFuel_congr (pm : List (Nat × List Nat)) :
    ∀ fuel1 fuel2 head,
      maxPos pm + 1 ≤ head + fuel1 → maxPos pm + 1 ≤ head + fuel2 →
      allSubLabelsFuel pm fuel1 head = allSubLabelsFuel pm fuel2 head := by
  intro fuel1
  induction fuel1 with
  | zero =>
    intro fuel2 head h1 h2
    have hn : lookupPos pm head = none := lookupPos_none_of_big pm head (by omega)
    cases fuel2 with
    | zero => rfl
    | succ f2 =>
      simp only [allSubLabelsFuel, hn]
  | succ f ih =>
    intro fuel2 head h1 h2
    cases fuel2 with
    | zero =>
      have hn : lookupPos pm head = none := lookupPos_none_of_big pm head (by omega)
      simp only [allSubLabelsFuel, hn]
    | succ f2 =>
      simp only [allSubLabelsFuel]
      cases hl : lookupPos pm head with
      | none => rfl
      | some label =>
        dsimp only
        rw [ih f2 (head + label.length + 1) (by omega) (by omega)]

/-- C8: on any cache whose recorded labels are non-empty (as holds for every
cache built by `decodeLabels`, whose literal labels have length at least 1,
so each chain step advances the offset by at least 2), the
`allSubsequentLabels` lookup chain terminates: for any pointer target
offset, running the chase with any fuel at least `maxPos + 1` — in
particular with arbitrarily more fuel than the wrapper uses — returns the
same label list, i.e. the chain has already stopped and can never loop
forever.  (The proof shows the chain visits strictly increasing offsets of
the finite map, so it even holds without the non-emptiness hypothesis.) -/
theorem C8_termination (c : LabelCache) (head fuel : Nat)
    (hne : ∀ p ∈ c.positionMap, p.2 ≠ [])
    (hfuel : maxPos c.positionMap + 1 ≤ fuel) :
    allSubLabelsFuel c.positionMap fuel head = c.allSubsequentLabels head := by
  unfold LabelCache.allSubsequentLabels
  exact allSubLabelsFuel_congr c.positionMap fuel (maxPos c.positionMap + 1) head
    (by omega) (by omega)

/-- The `google`/`com` cache of the spec's compression example: `google`
recorded at offset 12, `com` at offset 19. -/
def c8cache : LabelCache :=
  { labelMap := [([103, 111, 111, 103, 108, 101], 12), ([99, 111, 109], 19)],
    positionMap := [(12, [103, 111, 111, 103, 108, 101]), (19, [99, 111, 109])] }

/-- C8 witness: the termination theorem at the `google`/`com` cache, target
offset 12, fuel 100; the chase indeed yields `[google, com]`. -/
theorem C8_termination_witness :
    allSubLabelsFuel c8cache.positionMap 100 12 = c8cache.allSubsequentLabels 12 ∧
    c8cache.allSubsequentLabels 12 = [[103, 111, 111, 103, 108, 101], [99, 111, 109]] :=
  ⟨C8_termination c8cache 12 100 (by decide) (by decide), by decide⟩

/-! ## Claim C9 -/

/-- The upstream query built for each question: QDCOUNT = 1, exactly the one
question, QR = 0 and RD = 1, for any transaction id. -/
theorem buildQuery_fields (id : Nat) (q : Question) :
    (buildUpstreamQuery id q).header.QDCOUNT = 1 ∧
    (buildUpstreamQuery id q).question = [q] ∧
    (buildUpstreamQuery id q).header.QR = 0 ∧
    (buildUpstreamQuery id q).header.RD = 1 := by
  refine ⟨?_, rfl, ?_, ?_⟩ <;>
    simp [buildUpstreamQuery, Header.QDCOUNT, Header.QR, Header.RD,
      Header.setQDCOUNT, Header.setZ, Header.setRD, Header.setRA, Header.setTC,
      Header.setAA, Header.setQR, Header.setId, Header.new]

/-- When the question's name encodes, the upstream query serializes to its
header bytes followed by the one encoded question. -/
theorem buildQuery_serialize (id : Nat) (q : Question) (e : List Nat)
    (he : encodeLabelSequence q.QNAME = .ok e) :
    (buildUpstreamQuery id q).serialize =
      .ok ((buildUpstreamQuery id q).header.toBytes ++
        (e ++ q.QTYPE ++ q.QCLASS ++ []) ++ []) := by
  show (match serializeQuestions [q] with
    | .err e => Res.err e
    | .oob => Res.oob
    | .ok qb =>
      match serializeAnswers [] with
      | .err e => Res.err e
      | .oob => Res.oob
      | .ok ab => Res.ok ((buildUpstreamQuery id q).header.toBytes ++ qb ++ ab)) = _
  simp only [serializeQuestions, serializeAnswers, he]

/-- The inductive core of claim C9: when every question's name encodes and
every reply deserializes, `forwardResolve` sends one serialized upstream
query per question in list order and returns the concatenation of the
replies' answer sections in that order. -/
theorem forwardResolve_spec (questions : List Question) (ids : Nat → Nat)
    (replies : List (List Nat)) (ms : List Message)
    (henc : ∀ q ∈ questions, ∃ e, encodeLabelSequence q.QNAME = Res.ok e)
    (hrep : List.Forall₂ (fun r mr => deserialize r = Res.ok mr) replies ms)
    (hlen : replies.length = questions.length) :
    (forwardResolveGo questions ids replies).1.length = questions.length ∧
    (∀ i q, questions.get? i = some q →
      (forwardResolveGo questions ids replies).1.get? i =
        ((buildUpstreamQuery (ids i) q).serialize).toOption) ∧
    (forwardResolveGo questions ids replies).2 =
      Res.ok ((ms.map Message.answer).flatten) := by
  induction questions generalizing ids replies ms with
  | nil =>
    have hrnil : replies = [] := List.length_eq_zero.mp (by simpa using hlen)
    subst hrnil
    cases hrep
    refine ⟨rfl, ?_, rfl⟩
    intro i q hq
    exact absurd hq (by simp)
  | cons q qs ih =>
    obtain ⟨e, he⟩ := henc q (by simp)
    have hser := buildQuery_serialize (ids 0) q e he
    cases replies with
    | nil => simp at hlen
    | cons r rs =>
      cases hrep
      case cons mr ms2 hd tl =>
        have hqs : ∀ q2 ∈ qs, ∃ e2, encodeLabelSequence q2.QNAME = Res.ok e2 :=
          fun q2 hq2 => henc q2 (by simp [hq2])
        obtain ⟨ih1, ih2, ih3⟩ :=
          ih (fun i => ids (i + 1)) rs ms2 hqs tl (by simpa using hlen)
        cases hfr : forwardResolveGo qs (fun i => ids (i + 1)) rs with
        | mk sent2 res2 =>
          rw [hfr] at ih1 ih2 ih3
          simp only at ih1 ih2 ih3
          have hstep : forwardResolveGo (q :: qs) ids (r :: rs) =
              (((buildUpstreamQuery (ids 0) q).header.toBytes ++
                  (e ++ q.QTYPE ++ q.QCLASS ++ []) ++ []) :: sent2,
               Res.ok (mr.answer ++ (ms2.map Message.answer).flatten)) := by
            simp only [forwardResolveGo, hser, hd, hfr, ih3]
          rw [hstep]
          refine ⟨by simp [ih1], ?_, by simp⟩
          intro i q2 hq2
          cases i with
          | zero =>
            simp only [List.get?] at hq2 ⊢
            cases hq2
            rw [hser]
            rfl
          | succ i =>
            simp only [List.get?] at hq2 ⊢
            exact ih2 i q2 hq2

/-- C9: for every list of N questions, when every upstream exchange succeeds
(each name encodes, one reply per question arrives and deserializes),
`forwardResolve` sends exactly N upstream datagrams, the i-th being the
serialized one-question message built from question i (a message with
QDCOUNT = 1, exactly that question, QR = 0 and RD = 1), and returns the
concatenation of each reply's decoded answer section in question order. -/
theorem C9_forward (questions : List Question) (ids : Nat → Nat)
    (replies : List (List Nat)) (ms : List Message)
    (henc : ∀ q ∈ questions, ∃ e, encodeLabelSequence q.QNAME = Res.ok e)
    (hrep : List.Forall₂ (fun r mr => deserialize r = Res.ok mr) replies ms)
    (hlen : replies.length = questions.length) :
    (forwardResolveGo questions ids replies).1.length = questions.length ∧
    (∀ i q, questions.get? i = some q →
      (forwardResolveGo questions ids replies).1.get? i =
        ((buildUpstreamQuery (ids i) q).serialize).toOption) ∧
    (forwardResolveGo questions ids replies).2 =
      Res.ok ((ms.map Message.answer).flatten) ∧
    (∀ id q, (buildUpstreamQuery id q).header.QDCOUNT = 1 ∧
      (buildUpstreamQuery id q).question = [q] ∧
      (buildUpstreamQuery id q).header.QR = 0 ∧
      (buildUpstreamQuery id q).header.RD = 1) := by
  obtain ⟨h1, h2, h3⟩ := forwardResolve_spec questions ids replies ms henc hrep hlen
  exact ⟨h1, h2, h3, fun id q => buildQuery_fields id q⟩

/-- The question sent upstream in the C9 witness. -/
def q9 : Question := { QNAME := [[97, 98]], QTYPE := [0, 1], QCLASS := [0, 1] }

/-- The upstream reply of the C9 witness: an all-zero header-only frame. -/
def reply9 : List Nat := List.replicate 12 0

/-- The decoded form of `reply9`. -/
def m9 : Message := { header := Header.new, question := [], answer := [] }

/-- C9 witness: the theorem at one concrete question, a fixed id stream, and
one decodable upstream reply. -/
theorem C9_forward_witness :
    (forwardResolveGo [q9] (fun _ => 7) [reply9]).1.length = [q9].length ∧
    (∀ i q, [q9].get? i = some q →
      (forwardResolveGo [q9] (fun _ => 7) [reply9]).1.get? i =
        ((buildUpstreamQuery ((fun _ => 7) i) q).serialize).toOption) ∧
    (forwardResolveGo [q9] (fun _ => 7) [reply9]).2 =
      Res.ok (([m9].map Message.answer).flatten) ∧
    (∀ id q, (buildUpstreamQuery id q).header.QDCOUNT = 1 ∧
      (buildUpstreamQuery id q).question = [q] ∧
      (buildUpstreamQuery id q).header.QR = 0 ∧
      (buildUpstreamQuery id q).header.RD = 1) :=
  C9_forward [q9] (fun _ => 7) [reply9] [m9]
    (by
      intro q hq
      rw [List.mem_singleton] at hq
      subst hq
      exact ⟨[2, 97, 98, 0], by decide⟩)
    (List.Forall₂.cons (by decide) List.Forall₂.nil) rfl

/-! ## Claim C2 -/


/-- With every label within the 63-byte limit, the label loop emits one
length byte followed by the label bytes, per label. -/
theorem encodeLabelsLoop_ok (labels : List (List Nat))
    (hv : ∀ l ∈ labels, l.length ≤ 63) :
    encodeLabelsLoop labels = .ok (labelsBytes labels) := by
  induction labels with
  | nil => rfl
  | cons l rest ih =>
    have hl : l.length ≤ 63 := (hv l (by simp))
    have hrest := ih (fun l2 hl2 => hv l2 (by simp [hl2]))
    simp only [encodeLabelsLoop, labelsBytes, hrest, if_neg (by omega : ¬63 < l.length)]

/-- The emitted label bytes plus the terminator have exactly the wire
length of the name. -/
theorem labelsBytes_length (labels : List (List Nat)) :
    (labelsBytes labels).length + 1 = encodedNameLen labels := by
  induction labels with
  | nil => rfl
  | cons l rest ih =>
    simp only [labelsBytes, encodedNameLen, List.map_cons, List.sum_cons] at ih ⊢
    simp only [List.length_cons, List.length_append]
    omega

/-- A valid name encodes to its label bytes plus the zero terminator. -/
theorem encodeLabelSequence_ok (labels : List (List Nat))
    (hv : ∀ l ∈ labels, l.length ≤ 63) (hn : encodedNameLen labels ≤ 255) :
    encodeLabelSequence labels = .ok (labelsBytes labels ++ [0]) := by
  have h1 := encodeLabelsLoop_ok labels hv
  have h2 := labelsBytes_length labels
  simp only [encodeLabelSequence, h1]
  split
  case isTrue hcond =>
    exact absurd hcond (by
      simp only [List.length_append, List.length_cons, List.length_nil]
      omega)
  case isFalse hcond => rfl

/-- Round-trip of the label codec: decoding an encoded name laid out after
any prefix yields the same labels, consuming exactly the encoded bytes (for
any sufficient fuel; the cache is extended by the literal labels read). -/
theorem decodeLabels_encode (labels : List (List Nat)) :
    ∀ (pre suf : List Nat) (cache : LabelCache) (fuel : Nat),
      (∀ l ∈ labels, 1 ≤ l.length ∧ l.length ≤ 63) →
      labels.length < fuel →
      ∃ cache2,
        decodeLabelsFuel (pre ++ (labelsBytes labels ++ 0 :: suf)) fuel pre.length cache =
          .ok (labels, pre.length + (labelsBytes labels).length + 1, cache2) := by
  induction labels with
  | nil =>
    intro pre suf cache fuel hv hf
    obtain ⟨f, rfl⟩ : ∃ f, fuel = f + 1 := ⟨fuel - 1, by omega⟩
    refine ⟨cache, ?_⟩
    simp only [labelsBytes, List.nil_append, decodeLabelsFuel]
    rw [get?_append_here]
    simp [labelsBytes]
  | cons l rest ih =>
    intro pre suf cache fuel hv hf
    obtain ⟨f, rfl⟩ : ∃ f, fuel = f + 1 := ⟨fuel - 1, by omega⟩
    obtain ⟨hl1, hl63⟩ := hv l (by simp)
    have hE : labelsBytes (l :: rest) ++ 0 :: suf =
        l.length :: (l ++ (labelsBytes rest ++ 0 :: suf)) := by
      simp [labelsBytes]
    rw [hE]
    simp only [decodeLabelsFuel]
    rw [get?_append_here]
    dsimp only
    rw [if_neg (by omega), if_neg (by omega)]
    have hbound : pre.length + 1 + l.length ≤
        (pre ++ (l.length :: (l ++ (labelsBytes rest ++ 0 :: suf)))).length := by
      simp only [List.length_append, List.length_cons]
      omega
    rw [if_pos hbound]
    have hlabel : (((pre ++ (l.length :: (l ++ (labelsBytes rest ++ 0 :: suf)))).drop
        (pre.length + 1)).take l.length) = l := by
      have h2 : pre ++ (l.length :: (l ++ (labelsBytes rest ++ 0 :: suf))) =
          (pre ++ [l.length]) ++ (l ++ (labelsBytes rest ++ 0 :: suf)) := by simp
      have h3 : pre.length + 1 = (pre ++ [l.length]).length := by simp
      rw [h2, h3, List.drop_left, List.take_left]
    rw [hlabel]
    have hvrest : ∀ l2 ∈ rest, 1 ≤ l2.length ∧ l2.length ≤ 63 :=
      fun l2 h => hv l2 (by simp [h])
    obtain ⟨cache2, hrec⟩ :=
      ih (pre ++ l.length :: l) suf (cache.insert l pre.length) f hvrest
        (by simp at hf; omega)
    have h4 : (pre ++ l.length :: l) ++ (labelsBytes rest ++ 0 :: suf) =
        pre ++ (l.length :: (l ++ (labelsBytes rest ++ 0 :: suf))) := by simp
    have h5 : (pre ++ l.length :: l).length = pre.length + 1 + l.length := by
      simp only [List.length_append, List.length_cons]
      omega
    rw [h4, h5] at hrec
    rw [hrec]
    refine ⟨cache2, ?_⟩
    have h6 : pre.length + 1 + l.length + (labelsBytes rest).length + 1 =
        pre.length + (labelsBytes (l :: rest)).length + 1 := by
      simp only [labelsBytes, List.length_cons, List.length_append]
      omega
    rw [h6]

/-- A name never has more labels than encoded bytes. -/
theorem labels_le_labelsBytes (labels : List (List Nat)) :
    labels.length ≤ (labelsBytes labels).length := by
  induction labels with
  | nil => simp [labelsBytes]
  | cons l rest ih =>
    simp only [labelsBytes, List.length_cons, List.length_append]
    omega

/-- `decodeLabels_encode` re-keyed on an arbitrary cursor value. -/
theorem decodeLabels_at (src : List Nat) (pos : Nat) (labels : List (List Nat))
    (pre suf : List Nat) (cache : LabelCache)
    (hv : ∀ l ∈ labels, 1 ≤ l.length ∧ l.length ≤ 63)
    (hsrc : src = pre ++ (labelsBytes labels ++ 0 :: suf)) (hpos : pos = pre.length) :
    ∃ cache2, decodeLabels src pos cache =
      .ok (labels, pos + (labelsBytes labels).length + 1, cache2) := by
  subst hsrc hpos
  have hfuel : labels.length < (pre ++ (labelsBytes labels ++ 0 :: suf)).length + 1 := by
    have := labels_le_labelsBytes labels
    simp only [List.length_append, List.length_cons]
    omega
  exact decodeLabels_encode labels pre suf cache _ hv hfuel

/-- `extractUint16_append` re-keyed on an arbitrary cursor value. -/
theorem extractUint16_at (src : List Nat) (pos : Nat) (pre : List Nat) (a b : Nat)
    (suf : List Nat) (hsrc : src = pre ++ a :: b :: suf) (hpos : pos = pre.length) :
    extractUint16 src pos = .ok ([a, b], a * 256 + b, pos + 2) := by
  subst hsrc hpos
  exact extractUint16_append pre a b suf

/-- `extractUint32_append` re-keyed on an arbitrary cursor value. -/
theorem extractUint32_at (src : List Nat) (pos : Nat) (pre : List Nat) (a b c d : Nat)
    (suf : List Nat) (hsrc : src = pre ++ a :: b :: c :: d :: suf) (hpos : pos = pre.length) :
    extractUint32 src pos =
      .ok ([a, b, c, d], ((a * 256 + b) * 256 + c) * 256 + d, pos + 4) := by
  subst hsrc hpos
  exact extractUint32_append pre a b c d suf

/-- `extractBytes_append` re-keyed on an arbitrary cursor and length. -/
theorem extractBytes_at (src : List Nat) (pos n : Nat) (pre data suf : List Nat)
    (hsrc : src = pre ++ (data ++ suf)) (hpos : pos = pre.length)
    (hn : n = data.length) :
    extractBytes src pos n = .ok (data, pos + n) := by
  subst hsrc hpos hn
  exact extractBytes_append pre data suf

/-- The wire form of one question: encoded name, type, class. -/
def questionBytes (q : Question) : List Nat :=
  (labelsBytes q.QNAME ++ [0]) ++ q.QTYPE ++ q.QCLASS

/-- The wire form of a question section. -/
def questionsBytes : List Question → List Nat
  | [] => []
  | q :: rest => questionBytes q ++ questionsBytes rest

/-- The wire form of one resource record. -/
def answerBytes (a : RR) : List Nat :=
  (labelsBytes a.NAME ++ [0]) ++ a.TYPE ++ a.CLASS ++ a.TTL ++ a.RDLENGTH ++ a.RDATA

/-- The wire form of an answer section. -/
def answersBytes : List RR → List Nat
  | [] => []
  | a :: rest => answerBytes a ++ answersBytes rest

/-- A list of valid questions serializes to its wire form. -/
theorem serializeQuestions_ok (qs : List Question)
    (hv : ∀ q ∈ qs, ValidQuestion q) :
    serializeQuestions qs = .ok (questionsBytes qs) := by
  induction qs with
  | nil => rfl
  | cons q rest ih =>
    obtain ⟨hl, hn, ht, hc⟩ := hv q (by simp)
    have he := encodeLabelSequence_ok q.QNAME (fun l h => (hl l h).2) hn
    simp only [serializeQuestions, he, ih (fun q2 h => hv q2 (by simp [h])),
      questionsBytes, questionBytes]

/-- A list of valid records serializes to its wire form. -/
theorem serializeAnswers_ok (as2 : List RR)
    (hv : ∀ a ∈ as2, ValidRR a) :
    serializeAnswers as2 = .ok (answersBytes as2) := by
  induction as2 with
  | nil => rfl
  | cons a rest ih =>
    obtain ⟨hl, hn, hrest⟩ := hv a (by simp)
    have he := encodeLabelSequence_ok a.NAME (fun l h => (hl l h).2) hn
    simp only [serializeAnswers, he, ih (fun a2 h => hv a2 (by simp [h])),
      answersBytes, answerBytes]

/-- Round-trip of the question section: decoding the wire form of valid
questions laid out after any prefix returns exactly those questions. -/
theorem decodeQuestions_encode (qs : List Question) :
    ∀ (pre suf : List Nat) (cache : LabelCache),
      (∀ q ∈ qs, ValidQuestion q) →
      ∃ cache2,
        decodeQuestionsGo (pre ++ (questionsBytes qs ++ suf)) qs.length pre.length cache =
          .ok (qs, pre.length + (questionsBytes qs).length, cache2) := by
  induction qs with
  | nil =>
    intro pre suf cache hv
    exact ⟨cache, by simp [decodeQuestionsGo, questionsBytes]⟩
  | cons q rest ih =>
    intro pre suf cache hv
    obtain ⟨qn, qt, qc⟩ := q
    obtain ⟨hl, hn, ht, hc⟩ := hv ⟨qn, qt, qc⟩ (List.mem_cons_self _ _)
    have ht2 : qt.length = 2 := ht
    have hc2 : qc.length = 2 := hc
    obtain ⟨t0, t1, rfl⟩ := List.length_eq_two.mp ht2
    obtain ⟨c0, c1, rfl⟩ := List.length_eq_two.mp hc2
    have hl2 : ∀ l ∈ qn, 1 ≤ l.length ∧ l.length ≤ 63 := hl
    have hE : questionsBytes (⟨qn, [t0, t1], [c0, c1]⟩ :: rest) ++ suf =
        labelsBytes qn ++ 0 :: (t0 :: t1 :: (c0 :: c1 :: (questionsBytes rest ++ suf))) := by
      simp [questionsBytes, questionBytes]
    rw [hE]
    obtain ⟨cache1, hdl⟩ := decodeLabels_at
      (pre ++ (labelsBytes qn ++ 0 :: (t0 :: t1 :: (c0 :: c1 :: (questionsBytes rest ++ suf)))))
      pre.length qn pre (t0 :: t1 :: (c0 :: c1 :: (questionsBytes rest ++ suf))) cache
      hl2 rfl rfl
    have ht16 := extractUint16_at
      (pre ++ (labelsBytes qn ++ 0 :: (t0 :: t1 :: (c0 :: c1 :: (questionsBytes rest ++ suf)))))
      (pre.length + (labelsBytes qn).length + 1)
      (pre ++ labelsBytes qn ++ [0]) t0 t1 (c0 :: c1 :: (questionsBytes rest ++ suf))
      (by simp)
      (by simp only [List.length_append, List.length_cons, List.length_nil]; try omega)
    have hc16 := extractUint16_at
      (pre ++ (labelsBytes qn ++ 0 :: (t0 :: t1 :: (c0 :: c1 :: (questionsBytes rest ++ suf)))))
      (pre.length + (labelsBytes qn).length + 1 + 2)
      (pre ++ labelsBytes qn ++ [0] ++ [t0, t1]) c0 c1 (questionsBytes rest ++ suf)
      (by simp)
      (by simp only [List.length_append, List.length_cons, List.length_nil]; try omega)
    obtain ⟨cache2, hrec⟩ := ih (pre ++ labelsBytes qn ++ [0] ++ [t0, t1] ++ [c0, c1])
      suf cache1 (fun q2 h => hv q2 (by simp [h]))
    have e1 : (pre ++ labelsBytes qn ++ [0] ++ [t0, t1] ++ [c0, c1]) ++
          (questionsBytes rest ++ suf) =
        pre ++ (labelsBytes qn ++ 0 ::
          (t0 :: t1 :: (c0 :: c1 :: (questionsBytes rest ++ suf)))) := by simp
    have e2 : (pre ++ labelsBytes qn ++ [0] ++ [t0, t1] ++ [c0, c1]).length =
        pre.length + (labelsBytes qn).length + 1 + 2 + 2 := by
      simp only [List.length_append, List.length_cons, List.length_nil]
      try omega
    rw [e1, e2] at hrec
    refine ⟨cache2, ?_⟩
    simp only [List.length_cons, decodeQuestionsGo, hdl]
    simp only [ht16]
    simp only [hc16]
    simp only [hrec]
    have hpos : pre.length + (labelsBytes qn).length + 1 + 2 + 2 +
        (questionsBytes rest).length =
        pre.length + (questionsBytes (⟨qn, [t0, t1], [c0, c1]⟩ :: rest)).length := by
      simp only [questionsBytes, questionBytes, List.length_append,
        List.length_cons, List.length_nil]
      omega
    rw [hpos]

/-- A list of length four is literally four elements. -/
theorem length_eq_four (l : List Nat) (h : l.length = 4) :
    ∃ a b c d, l = [a, b, c, d] := by
  cases l with
  | nil => simp at h
  | cons a l1 =>
    cases l1 with
    | nil => simp at h
    | cons b l2 =>
      cases l2 with
      | nil => simp at h
      | cons c l3 =>
        cases l3 with
        | nil => simp at h
        | cons d l4 =>
          cases l4 with
          | nil => exact ⟨a, b, c, d, rfl⟩
          | cons e l5 => simp at h

/-- Round-trip of the answer section: decoding the wire form of valid
records laid out after any prefix returns exactly those records, rdata
included (the `RDLENGTH` field drives the rdata read). -/
theorem decodeAnswers_encode (as2 : List RR) :
    ∀ (pre suf : List Nat) (cache : LabelCache),
      (∀ a ∈ as2, ValidRR a) →
      ∃ cache2,
        decodeAnswersGo (pre ++ (answersBytes as2 ++ suf)) as2.length pre.length cache =
          .ok (as2, pre.length + (answersBytes as2).length, cache2) := by
  induction as2 with
  | nil =>
    intro pre suf cache hv
    exact ⟨cache, by simp [decodeAnswersGo, answersBytes]⟩
  | cons a rest ih =>
    intro pre suf cache hv
    obtain ⟨an, aty, acl, attl, ardl, ard⟩ := a
    obtain ⟨hl, hn, hty, hcl, httl, hrdl, hval⟩ :=
      hv ⟨an, aty, acl, attl, ardl, ard⟩ (List.mem_cons_self _ _)
    have hty2 : aty.length = 2 := hty
    have hcl2 : acl.length = 2 := hcl
    have httl2 : attl.length = 4 := httl
    have hrdl2 : ardl.length = 2 := hrdl
    obtain ⟨t0, t1, rfl⟩ := List.length_eq_two.mp hty2
    obtain ⟨c0, c1, rfl⟩ := List.length_eq_two.mp hcl2
    obtain ⟨u0, u1, u2, u3, rfl⟩ := length_eq_four attl httl2
    obtain ⟨r0, r1, rfl⟩ := List.length_eq_two.mp hrdl2
    have hval2 : r0 * 256 + r1 = ard.length := hval
    have hl2 : ∀ l ∈ an, 1 ≤ l.length ∧ l.length ≤ 63 := hl
    have hE : answersBytes (⟨an, [t0, t1], [c0, c1], [u0, u1, u2, u3], [r0, r1], ard⟩ :: rest) ++ suf =
        labelsBytes an ++ 0 :: (t0 :: t1 :: (c0 :: c1 :: (u0 :: u1 :: u2 :: u3 ::
          (r0 :: r1 :: (ard ++ (answersBytes rest ++ suf)))))) := by
      simp [answersBytes, answerBytes]
    rw [hE]
    obtain ⟨cache1, hdl⟩ := decodeLabels_at
      (pre ++ (labelsBytes an ++ 0 :: (t0 :: t1 :: (c0 :: c1 :: (u0 :: u1 :: u2 :: u3 ::
        (r0 :: r1 :: (ard ++ (answersBytes rest ++ suf))))))))
      pre.length an pre
      (t0 :: t1 :: (c0 :: c1 :: (u0 :: u1 :: u2 :: u3 ::
        (r0 :: r1 :: (ard ++ (answersBytes rest ++ suf)))))) cache hl2 rfl rfl
    have hty16 := extractUint16_at
      (pre ++ (labelsBytes an ++ 0 :: (t0 :: t1 :: (c0 :: c1 :: (u0 :: u1 :: u2 :: u3 ::
        (r0 :: r1 :: (ard ++ (answersBytes rest ++ suf))))))))
      (pre.length + (labelsBytes an).length + 1)
      (pre ++ labelsBytes an ++ [0]) t0 t1
      (c0 :: c1 :: (u0 :: u1 :: u2 :: u3 :: (r0 :: r1 :: (ard ++ (answersBytes rest ++ suf)))))
      (by simp)
      (by simp only [List.length_append, List.length_cons, List.length_nil]; try omega)
    have hcl16 := extractUint16_at
      (pre ++ (labelsBytes an ++ 0 :: (t0 :: t1 :: (c0 :: c1 :: (u0 :: u1 :: u2 :: u3 ::
        (r0 :: r1 :: (ard ++ (answersBytes rest ++ suf))))))))
      (pre.length + (labelsBytes an).length + 1 + 2)
      (pre ++ labelsBytes an ++ [0] ++ [t0, t1]) c0 c1
      (u0 :: u1 :: u2 :: u3 :: (r0 :: r1 :: (ard ++ (answersBytes rest ++ suf))))
      (by simp)
      (by simp only [List.length_append, List.length_cons, List.length_nil]; try omega)
    have httl32 := extractUint32_at
      (pre ++ (labelsBytes an ++ 0 :: (t0 :: t1 :: (c0 :: c1 :: (u0 :: u1 :: u2 :: u3 ::
        (r0 :: r1 :: (ard ++ (answersBytes rest ++ suf))))))))
      (pre.length + (labelsBytes an).length + 1 + 2 + 2)
      (pre ++ labelsBytes an ++ [0] ++ [t0, t1] ++ [c0, c1]) u0 u1 u2 u3
      (r0 :: r1 :: (ard ++ (answersBytes rest ++ suf)))
      (by simp)
      (by simp only [List.length_append, List.length_cons, List.length_nil]; try omega)
    have hrd16 := extractUint16_at
      (pre ++ (labelsBytes an ++ 0 :: (t0 :: t1 :: (c0 :: c1 :: (u0 :: u1 :: u2 :: u3 ::
        (r0 :: r1 :: (ard ++ (answersBytes rest ++ suf))))))))
      (pre.length + (labelsBytes an).length + 1 + 2 + 2 + 4)
      (pre ++ labelsBytes an ++ [0] ++ [t0, t1] ++ [c0, c1] ++ [u0, u1, u2, u3]) r0 r1
      (ard ++ (answersBytes rest ++ suf))
      (by simp)
      (by simp only [List.length_append, List.length_cons, List.length_nil]; try omega)
    have hbytes := extractBytes_at
      (pre ++ (labelsBytes an ++ 0 :: (t0 :: t1 :: (c0 :: c1 :: (u0 :: u1 :: u2 :: u3 ::
        (r0 :: r1 :: (ard ++ (answersBytes rest ++ suf))))))))
      (pre.length + (labelsBytes an).length + 1 + 2 + 2 + 4 + 2) (r0 * 256 + r1)
      (pre ++ labelsBytes an ++ [0] ++ [t0, t1] ++ [c0, c1] ++ [u0, u1, u2, u3] ++ [r0, r1])
      ard (answersBytes rest ++ suf)
      (by simp)
      (by simp only [List.length_append, List.length_cons, List.length_nil]; try omega)
      (hval2)
    obtain ⟨cache2, hrec⟩ := ih
      (pre ++ labelsBytes an ++ [0] ++ [t0, t1] ++ [c0, c1] ++ [u0, u1, u2, u3] ++ [r0, r1] ++ ard)
      suf cache1 (fun a2 h => hv a2 (by simp [h]))
    have e1 : (pre ++ labelsBytes an ++ [0] ++ [t0, t1] ++ [c0, c1] ++ [u0, u1, u2, u3] ++
          [r0, r1] ++ ard) ++ (answersBytes rest ++ suf) =
        pre ++ (labelsBytes an ++ 0 :: (t0 :: t1 :: (c0 :: c1 :: (u0 :: u1 :: u2 :: u3 ::
          (r0 :: r1 :: (ard ++ (answersBytes rest ++ suf))))))) := by simp
    have e2 : (pre ++ labelsBytes an ++ [0] ++ [t0, t1] ++ [c0, c1] ++ [u0, u1, u2, u3] ++
          [r0, r1] ++ ard).length =
        pre.length + (labelsBytes an).length + 1 + 2 + 2 + 4 + 2 + (r0 * 256 + r1) := by
      simp only [List.length_append, List.length_cons, List.length_nil]
      omega
    rw [e1, e2] at hrec
    refine ⟨cache2, ?_⟩
    simp only [List.length_cons, decodeAnswersGo, hdl]
    simp only [hty16]
    simp only [hcl16]
    simp only [httl32]
    simp only [hrd16]
    simp only [hbytes]
    simp only [hrec]
    have hpos : pre.length + (labelsBytes an).length + 1 + 2 + 2 + 4 + 2 + (r0 * 256 + r1) +
        (answersBytes rest).length =
        pre.length + (answersBytes
          (⟨an, [t0, t1], [c0, c1], [u0, u1, u2, u3], [r0, r1], ard⟩ :: rest)).length := by
      simp only [answersBytes, answerBytes, List.length_append, List.length_cons,
        List.length_nil]
      omega
    rw [hpos]

/-- Copying a serialized header out of a frame recovers the header. -/
theorem ofFrame_toBytes (h : Header) (rest : List Nat) :
    Header.ofFrame (h.toBytes ++ rest) = h := by
  cases h
  rfl

/-- C2: for every valid message (labels of 1..63 bytes, names of at most
255 encoded bytes, QDCOUNT/ANCOUNT matching the section lists, RDLENGTH
fields holding the rdata lengths, empty authority/additional),
serialization succeeds and deserializing the produced bytes succeeds and
returns a message with the same header bytes, the same question list and
the same answer list. -/
theorem C2_roundtrip (m : Message) (hv : ValidMessage m) :
    ∃ bytes m2, m.serialize = Res.ok bytes ∧ deserialize bytes = Res.ok m2 ∧
      m2.header = m.header ∧ m2.question = m.question ∧ m2.answer = m.answer := by
  obtain ⟨hqd, han, hvq, hva, hauth, hadd⟩ := hv
  have hsq := serializeQuestions_ok m.question hvq
  have hsa := serializeAnswers_ok m.answer hva
  have hser : m.serialize = Res.ok (m.header.toBytes ++
      (questionsBytes m.question ++ answersBytes m.answer)) := by
    simp only [Message.serialize, hsq, hsa, List.append_assoc]
  refine ⟨m.header.toBytes ++ (questionsBytes m.question ++ answersBytes m.answer),
    { header := m.header, question := m.question, answer := m.answer },
    hser, ?_, rfl, rfl, rfl⟩
  have h12 : m.header.toBytes.length = 12 := rfl
  obtain ⟨cacheQ, hdq⟩ := decodeQuestions_encode m.question m.header.toBytes
    (answersBytes m.answer) LabelCache.empty hvq
  obtain ⟨cacheA, hda⟩ := decodeAnswers_encode m.answer
    (m.header.toBytes ++ questionsBytes m.question) [] cacheQ hva
  rw [h12] at hdq
  have e3 : (m.header.toBytes ++ questionsBytes m.question).length =
      12 + (questionsBytes m.question).length := by
    simp only [List.length_append, h12]
  have e4 : (m.header.toBytes ++ questionsBytes m.question) ++
      (answersBytes m.answer ++ []) =
      m.header.toBytes ++ (questionsBytes m.question ++ answersBytes m.answer) := by
    simp
  rw [e3, e4] at hda
  have hofr : Header.ofFrame (m.header.toBytes ++
      (questionsBytes m.question ++ answersBytes m.answer)) = m.header :=
    ofFrame_toBytes m.header _
  have hlen12 : ¬(m.header.toBytes ++
      (questionsBytes m.question ++ answersBytes m.answer)).length < 12 := by
    simp only [List.length_append, h12]
    omega
  unfold deserialize
  rw [if_neg hlen12]
  rw [hofr]
  rw [show m.header.QDCOUNT = m.question.length from hqd]
  simp only [hdq]
  rw [show m.header.ANCOUNT = m.answer.length from han]
  simp only [hda]

/-- A concrete valid one-question one-answer message. -/
def exm2 : Message :=
  { header := { Header.new with b5 := 1, b7 := 1 },
    question := [{ QNAME := [[97, 98]], QTYPE := [0, 1], QCLASS := [0, 1] }],
    answer := [{ NAME := [[99]], TYPE := [0, 1], CLASS := [0, 1],
                 TTL := [0, 0, 0, 60], RDLENGTH := [0, 4], RDATA := [8, 8, 8, 8] }] }

/-- C2 witness: the round-trip theorem at `exm2`. -/
theorem C2_roundtrip_witness :
    ∃ bytes m2, exm2.serialize = Res.ok bytes ∧ deserialize bytes = Res.ok m2 ∧
      m2.header = exm2.header ∧ m2.question = exm2.question ∧
      m2.answer = exm2.answer :=
  C2_roundtrip exm2 (by decide)

/-! ## Claim C1

Go indexing (`frame[i]`, used for label-length bytes, pointer bytes and the
fixed-width fields) panics past `len(frame)`; a Go slice expression
(`src[off : off+n]`, used by `extractBytes` for literal label content and
rdata) panics only past `cap(src)`.  Server frames are `buf[:size]` with
capacity 512, so the slice reads may silently reach into the spare region
of the buffer.  The cap-aware model below takes that spare region as an
explicit parameter. -/

/-- `extractBytes` on a frame with spare capacity: `src[off : off+n]`
succeeds whenever `off+n` is within the capacity `len(src) + len(spare)`,
returning bytes of the backing array (which continue into `spare` past the
frame end); it panics only past the capacity. -/
def extractBytesCap (src spare : List Nat) (offset length : Nat) : Res (List Nat × Nat) :=
  if offset + length ≤ src.length + spare.length then
    .ok (((src ++ spare).drop offset).take length, offset + length)
  else .oob

/-- The `decodeLabels` loop on a frame with spare capacity: identical to
`decodeLabelsFuel` except that the literal label content is read with the
cap-bounded slice (`extractBytesCap`); the label-length and pointer bytes
are still len-bounded index reads. -/
def decodeLabelsFuelCap (frame spare : List Nat) : Nat → Nat → LabelCache →
    Res (List (List Nat) × Nat × LabelCache)
  | 0, _, _ => .oob
  | fuel + 1, head, cache =>
    match frame.get? head with
    | none => .oob
    | some b =>
      if b = 0 then
        .ok ([], head + 1, cache)
      else if b = 192 then
        match frame.get? (head + 1) with
        | none => .oob
        | some p =>
          let referencedLabels := cache.allSubsequentLabels p
          if referencedLabels.length = 0 then .err "Invalid label reference"
          else .ok (referencedLabels, head + 2, cache)
      else
        match extractBytesCap frame spare (head + 1) b with
        | .err e => .err e
        | .oob => .oob
        | .ok (label, head1) =>
          match decodeLabelsFuelCap frame spare fuel head1 (cache.insert label head) with
          | .ok (rest, head2, cache2) => .ok (label :: rest, head2, cache2)
          | .err e => .err e
          | .oob => .oob

/-- `decodeLabels` on a frame with spare capacity (fuel `frame.length + 1`
suffices for the same reason as in `decodeLabels`: the loop can only
continue while the cursor's index read stays inside the frame, and each
literal label advances the cursor by at least 2). -/
def decodeLabelsCap (frame spare : List Nat) (head : Nat) (cache : LabelCache) :
    Res (List (List Nat) × Nat × LabelCache) :=
  decodeLabelsFuelCap frame spare (frame.length + 1) head cache

/-- The QUESTION loop of `deserialize` on a frame with spare capacity. -/
def decodeQuestionsGoCap (frame spare : List Nat) : Nat → Nat → LabelCache →
    Res (List Question × Nat × LabelCache)
  | 0, head, cache => .ok ([], head, cache)
  | count + 1, head, cache =>
    match decodeLabelsCap frame spare head cache with
    | .err e => .err e
    | .oob => .oob
    | .ok (labels, head1, cache1) =>
      match extractUint16 frame head1 with
      | .err e => .err e
      | .oob => .oob
      | .ok (qtype, _, head2) =>
        match extractUint16 frame head2 with
        | .err e => .err e
        | .oob => .oob
        | .ok (qclass, _, head3) =>
          match decodeQuestionsGoCap frame spare count head3 cache1 with
          | .ok (rest, head4, cache4) =>
            .ok ({ QNAME := labels, QTYPE := qtype, QCLASS := qclass } :: rest, head4, cache4)
          | .err e => .err e
          | .oob => .oob

/-- The ANSWER loop of `deserialize` on a frame with spare capacity: the
rdata read is the cap-bounded slice. -/
def decodeAnswersGoCap (frame spare : List Nat) : Nat → Nat → LabelCache →
    Res (List RR × Nat × LabelCache)
  | 0, head, cache => .ok ([], head, cache)
  | count + 1, head, cache =>
    match decodeLabelsCap frame spare head cache with
    | .err e => .err e
    | .oob => .oob
    | .ok (labels, head1, cache1) =>
      match extractUint16 frame head1 with
      | .err e => .err e
      | .oob => .oob
      | .ok (ty, _, head2) =>
        match extractUint16 frame head2 with
        | .err e => .err e
        | .oob => .oob
        | .ok (cl, _, head3) =>
          match extractUint32 frame head3 with
          | .err e => .err e
          | .oob => .oob
          | .ok (ttl, _, head4) =>
            match extractUint16 frame head4 with
            | .err e => .err e
            | .oob => .oob
            | .ok (rdl, rdLength, head5) =>
              match extractBytesCap frame spare head5 rdLength with
              | .err e => .err e
              | .oob => .oob
              | .ok (rdata, head6) =>
                match decodeAnswersGoCap frame spare count head6 cache1 with
                | .ok (rest, head7, cache7) =>
                  .ok ({ NAME := labels, TYPE := ty, CLASS := cl, TTL := ttl,
                         RDLENGTH := rdl, RDATA := rdata } :: rest, head7, cache7)
                | .err e => .err e
                | .oob => .oob

/-- `deserialize` on a server frame `buf[:size]`: `frame` is the datagram,
`spare` the backing buffer bytes between its length and its capacity. -/
def deserializeCap (frame spare : List Nat) : Res Message :=
  let header := Header.ofFrame frame
  if frame.length < 12 then .err "invalid DNS header"
  else
    match decodeQuestionsGoCap frame spare header.QDCOUNT 12 LabelCache.empty with
    | .err e => .err e
    | .oob => .oob
    | .ok (questions, head1, cache1) =>
      match decodeAnswersGoCap frame spare header.ANCOUNT head1 cache1 with
      | .err e => .err e
      | .oob => .oob
      | .ok (answers, _, _) =>
        .ok { header := header, question := questions, answer := answers }

/-- With no spare capacity the cap-bounded slice is the len-bounded one. -/
theorem extractBytesCap_nil (src : List Nat) (offset length : Nat) :
    extractBytesCap src [] offset length = extractBytes src offset length := by
  unfold extractBytesCap extractBytes
  simp

/-- A successful cap-bounded slice advances the offset by the read length. -/
theorem extractBytesCap_ok (src spare : List Nat) (offset length : Nat)
    (p : List Nat × Nat) (h : extractBytesCap src spare offset length = .ok p) :
    p.2 = offset + length := by
  unfold extractBytesCap at h
  split at h
  · cases h; rfl
  · exact Res.noConfusion h

/-- With the cursor at or past the end of the frame, the cap-aware
`decodeLabels` loop panics regardless of the fuel and of the spare region:
the label-length byte is a len-bounded index read. -/
theorem decodeLabelsFuelCap_oob (frame spare : List Nat) (fuel head : Nat)
    (cache : LabelCache) (h : frame.length ≤ head) :
    decodeLabelsFuelCap frame spare fuel head cache = .oob := by
  cases fuel with
  | zero => rfl
  | succ f =>
    simp only [decodeLabelsFuelCap]
    rw [List.get?_eq_none.mpr h]

/-- Fuel-independence of the cap-aware `decodeLabels` loop beyond
`frame.length + 1`: the wrapper fuel realises Go's unbounded loop. -/
theorem decodeLabelsFuelCap_congr (frame spare : List Nat) :
    ∀ fuel1 fuel2 head cache,
      frame.length + 1 ≤ head + fuel1 → frame.length + 1 ≤ head + fuel2 →
      decodeLabelsFuelCap frame spare fuel1 head cache =
        decodeLabelsFuelCap frame spare fuel2 head cache := by
  intro fuel1
  induction fuel1 with
  | zero =>
    intro fuel2 head cache h1 h2
    rw [decodeLabelsFuelCap_oob frame spare 0 head cache (by omega),
        decodeLabelsFuelCap_oob frame spare fuel2 head cache (by omega)]
  | succ f ih =>
    intro fuel2 head cache h1 h2
    cases fuel2 with
    | zero =>
      rw [decodeLabelsFuelCap_oob frame spare (f + 1) head cache (by omega),
          decodeLabelsFuelCap_oob frame spare 0 head cache (by omega)]
    | succ f2 =>
      simp only [decodeLabelsFuelCap]
      cases hget : frame.get? head with
      | none => rfl
      | some b =>
        by_cases hb0 : b = 0
        · simp [hb0]
        · by_cases hb192 : b = 192
          · simp [hb0, hb192]
          · simp only [hb0, hb192, if_neg, if_false]
            cases hx : extractBytesCap frame spare (head + 1) b with
            | err e => rfl
            | oob => rfl
            | ok p =>
              obtain ⟨label, head1⟩ := p
              have hh1 : head1 = head + 1 + b :=
                extractBytesCap_ok frame spare (head + 1) b (label, head1) hx
              dsimp only
              rw [ih f2 head1 (cache.insert label head) (by omega) (by omega)]

/-- With no spare capacity the cap-aware label loop is the original one. -/
theorem decodeLabelsFuelCap_nil (frame : List Nat) :
    ∀ fuel head cache,
      decodeLabelsFuelCap frame [] fuel head cache =
        decodeLabelsFuel frame fuel head cache := by
  intro fuel
  induction fuel with
  | zero => intro head cache; rfl
  | succ f ih =>
    intro head cache
    simp only [decodeLabelsFuelCap, decodeLabelsFuel]
    cases hget : frame.get? head with
    | none => rfl
    | some b =>
      by_cases hb0 : b = 0
      · simp [hb0]
      · by_cases hb192 : b = 192
        · simp [hb0, hb192]
        · simp only [hb0, hb192, if_neg, if_false]
          rw [extractBytesCap_nil]
          unfold extractBytes
          by_cases hlen : head + 1 + b ≤ frame.length
          · rw [if_pos hlen, if_pos hlen]
            dsimp only
            rw [ih]
          · rw [if_neg hlen, if_neg hlen]

/-- With no spare capacity the cap-aware `decodeLabels` is the original. -/
theorem decodeLabelsCap_nil (frame : List Nat) (head : Nat) (cache : LabelCache) :
    decodeLabelsCap frame [] head cache = decodeLabels frame head cache :=
  decodeLabelsFuelCap_nil frame (frame.length + 1) head cache

/-- With no spare capacity the cap-aware question loop is the original. -/
theorem decodeQuestionsGoCap_nil (frame : List Nat) :
    ∀ count head cache,
      decodeQuestionsGoCap frame [] count head cache =
        decodeQuestionsGo frame count head cache := by
  intro count
  induction count with
  | zero => intro head cache; rfl
  | succ c ih =>
    intro head cache
    simp only [decodeQuestionsGoCap, decodeQuestionsGo, decodeLabelsCap_nil]
    cases decodeLabels frame head cache with
    | err e => rfl
    | oob => rfl
    | ok t =>
      obtain ⟨labels, head1, cache1⟩ := t
      dsimp only
      cases extractUint16 frame head1 with
      | err e => rfl
      | oob => rfl
      | ok t2 =>
        obtain ⟨qtype, v2, head2⟩ := t2
        dsimp only
        cases extractUint16 frame head2 with
        | err e => rfl
        | oob => rfl
        | ok t3 =>
          obtain ⟨qclass, v3, head3⟩ := t3
          dsimp only
          rw [ih]

/-- With no spare capacity the cap-aware answer loop is the original. -/
theorem decodeAnswersGoCap_nil (frame : List Nat) :
    ∀ count head cache,
      decodeAnswersGoCap frame [] count head cache =
        decodeAnswersGo frame count head cache := by
  intro count
  induction count with
  | zero => intro head cache; rfl
  | succ c ih =>
    intro head cache
    simp only [decodeAnswersGoCap, decodeAnswersGo, decodeLabelsCap_nil]
    cases decodeLabels frame head cache with
    | err e => rfl
    | oob => rfl
    | ok t =>
      obtain ⟨labels, head1, cache1⟩ := t
      dsimp only
      cases extractUint16 frame head1 with
      | err e => rfl
      | oob => rfl
      | ok t2 =>
        obtain ⟨ty, v2, head2⟩ := t2
        dsimp only
        cases extractUint16 frame head2 with
        | err e => rfl
        | oob => rfl
        | ok t3 =>
          obtain ⟨cl, v3, head3⟩ := t3
          dsimp only
          cases extractUint32 frame head3 with
          | err e => rfl
          | oob => rfl
          | ok t4 =>
            obtain ⟨ttl, v4, head4⟩ := t4
            dsimp only
            cases extractUint16 frame head4 with
            | err e => rfl
            | oob => rfl
            | ok t5 =>
              obtain ⟨rdl, rdLength, head5⟩ := t5
              dsimp only
              rw [extractBytesCap_nil]
              cases extractBytes frame head5 rdLength with
              | err e => rfl
              | oob => rfl
              | ok t6 =>
                obtain ⟨rdata, head6⟩ := t6
                dsimp only
                rw [ih]

/-- The len-bounded `deserialize` is exactly the server model with an empty
spare region (`cap = len`). -/
theorem deserializeCap_nil (frame : List Nat) :
    deserializeCap frame [] = deserialize frame := by
  unfold deserializeCap deserialize
  dsimp only
  rw [decodeQuestionsGoCap_nil]
  cases decodeQuestionsGo frame (Header.ofFrame frame).QDCOUNT 12 LabelCache.empty with
  | err e => rfl
  | oob => rfl
  | ok t =>
    obtain ⟨questions, head1, cache1⟩ := t
    dsimp only
    rw [decodeAnswersGoCap_nil]

/-- The cap-bounded slice never returns a Go error (only ok or panic). -/
theorem extractBytesCap_ne_err (src spare : List Nat) (offset length : Nat) (e : String) :
    extractBytesCap src spare offset length ≠ .err e := by
  unfold extractBytesCap
  split <;> simp

/-- `extractUint16` never returns a Go error (only ok or panic). -/
theorem extractUint16_ne_err (src : List Nat) (offset : Nat) (e : String) :
    extractUint16 src offset ≠ .err e := by
  unfold extractUint16
  cases src.get? offset <;> cases src.get? (offset + 1) <;> simp

/-- `extractUint32` never returns a Go error (only ok or panic). -/
theorem extractUint32_ne_err (src : List Nat) (offset : Nat) (e : String) :
    extractUint32 src offset ≠ .err e := by
  unfold extractUint32
  cases src.get? offset <;> cases src.get? (offset + 1) <;>
    cases src.get? (offset + 2) <;> cases src.get? (offset + 3) <;> simp

/-- The only error the label loop can return is the invalid-pointer one. -/
theorem decodeLabelsFuelCap_err (frame spare : List Nat) :
    ∀ fuel head cache e,
      decodeLabelsFuelCap frame spare fuel head cache = .err e →
      e = "Invalid label reference" := by
  intro fuel
  induction fuel with
  | zero => intro head cache e h; exact Res.noConfusion h
  | succ f ih =>
    intro head cache e h
    simp only [decodeLabelsFuelCap] at h
    cases hget : frame.get? head with
    | none => rw [hget] at h; exact Res.noConfusion h
    | some b =>
      rw [hget] at h
      dsimp only at h
      by_cases hb0 : b = 0
      · rw [if_pos hb0] at h; exact Res.noConfusion h
      · rw [if_neg hb0] at h
        by_cases hb192 : b = 192
        · rw [if_pos hb192] at h
          cases hget2 : frame.get? (head + 1) with
          | none => rw [hget2] at h; exact Res.noConfusion h
          | some p =>
            rw [hget2] at h
            dsimp only at h
            split at h
            · injection h with h2; exact h2.symm
            · exact Res.noConfusion h
        · rw [if_neg hb192] at h
          cases hx : extractBytesCap frame spare (head + 1) b with
          | err e2 => exact absurd hx (extractBytesCap_ne_err frame spare (head + 1) b e2)
          | oob => rw [hx] at h; exact Res.noConfusion h
          | ok p =>
            rw [hx] at h
            obtain ⟨label, head1⟩ := p
            dsimp only at h
            cases hrec : decodeLabelsFuelCap frame spare f head1 (cache.insert label head) with
            | err e2 =>
              rw [hrec] at h
              injection h with h2
              rw [← h2]
              exact ih head1 (cache.insert label head) e2 hrec
            | oob => rw [hrec] at h; exact Res.noConfusion h
            | ok t => rw [hrec] at h; exact Res.noConfusion h

/-- The only error the question loop can return is the invalid-pointer one. -/
theorem decodeQuestionsGoCap_err (frame spare : List Nat) :
    ∀ count head cache e,
      decodeQuestionsGoCap frame spare count head cache = .err e →
      e = "Invalid label reference" := by
  intro count
  induction count with
  | zero => intro head cache e h; exact Res.noConfusion h
  | succ c ih =>
    intro head cache e h
    simp only [decodeQuestionsGoCap] at h
    cases hdl : decodeLabelsCap frame spare head cache with
    | err e2 =>
      rw [hdl] at h
      injection h with h2
      rw [← h2]
      exact decodeLabelsFuelCap_err frame spare _ head cache e2 hdl
    | oob => rw [hdl] at h; exact Res.noConfusion h
    | ok t =>
      rw [hdl] at h
      obtain ⟨labels, head1, cache1⟩ := t
      dsimp only at h
      cases h16 : extractUint16 frame head1 with
      | err e2 => exact absurd h16 (extractUint16_ne_err frame head1 e2)
      | oob => rw [h16] at h; exact Res.noConfusion h
      | ok t2 =>
        rw [h16] at h
        obtain ⟨qtype, v2, head2⟩ := t2
        dsimp only at h
        cases h162 : extractUint16 frame head2 with
        | err e2 => exact absurd h162 (extractUint16_ne_err frame head2 e2)
        | oob => rw [h162] at h; exact Res.noConfusion h
        | ok t3 =>
          rw [h162] at h
          obtain ⟨qclass, v3, head3⟩ := t3
          dsimp only at h
          cases hrec : decodeQuestionsGoCap frame spare c head3 cache1 with
          | err e2 =>
            rw [hrec] at h
            injection h with h2
            rw [← h2]
            exact ih head3 cache1 e2 hrec
          | oob => rw [hrec] at h; exact Res.noConfusion h
          | ok t4 => rw [hrec] at h; exact Res.noConfusion h

/-- The only error the answer loop can return is the invalid-pointer one. -/
theorem decodeAnswersGoCap_err (frame spare : List Nat) :
    ∀ count head cache e,
      decodeAnswersGoCap frame spare count head cache = .err e →
      e = "Invalid label reference" := by
  intro count
  induction count with
  | zero => intro head cache e h; exact Res.noConfusion h
  | succ c ih =>
    intro head cache e h
    simp only [decodeAnswersGoCap] at h
    cases hdl : decodeLabelsCap frame spare head cache with
    | err e2 =>
      rw [hdl] at h
      injection h with h2
      rw [← h2]
      exact decodeLabelsFuelCap_err frame spare _ head cache e2 hdl
    | oob => rw [hdl] at h; exact Res.noConfusion h
    | ok t =>
      rw [hdl] at h
      obtain ⟨labels, head1, cache1⟩ := t
      dsimp only at h
      cases h16 : extractUint16 frame head1 with
      | err e2 => exact absurd h16 (extractUint16_ne_err frame head1 e2)
      | oob => rw [h16] at h; exact Res.noConfusion h
      | ok t2 =>
        rw [h16] at h
        obtain ⟨ty, v2, head2⟩ := t2
        dsimp only at h
        cases h162 : extractUint16 frame head2 with
        | err e2 => exact absurd h162 (extractUint16_ne_err frame head2 e2)
        | oob => rw [h162] at h; exact Res.noConfusion h
        | ok t3 =>
          rw [h162] at h
          obtain ⟨cl, v3, head3⟩ := t3
          dsimp only at h
          cases h32 : extractUint32 frame head3 with
          | err e2 => exact absurd h32 (extractUint32_ne_err frame head3 e2)
          | oob => rw [h32] at h; exact Res.noConfusion h
          | ok t4 =>
            rw [h32] at h
            obtain ⟨ttl, v4, head4⟩ := t4
            dsimp only at h
            cases h163 : extractUint16 frame head4 with
            | err e2 => exact absurd h163 (extractUint16_ne_err frame head4 e2)
            | oob => rw [h163] at h; exact Res.noConfusion h
            | ok t5 =>
              rw [h163] at h
              obtain ⟨rdl, rdLength, head5⟩ := t5
              dsimp only at h
              cases hxb : extractBytesCap frame spare head5 rdLength with
              | err e2 =>
                exact absurd hxb (extractBytesCap_ne_err frame spare head5 rdLength e2)
              | oob => rw [hxb] at h; exact Res.noConfusion h
              | ok t6 =>
                rw [hxb] at h
                obtain ⟨rdata, head6⟩ := t6
                dsimp only at h
                cases hrec : decodeAnswersGoCap frame spare c head6 cache1 with
                | err e2 =>
                  rw [hrec] at h
                  injection h with h2
                  rw [← h2]
                  exact ih head6 cache1 e2 hrec
                | oob => rw [hrec] at h; exact Res.noConfusion h
                | ok t7 => rw [hrec] at h; exact Res.noConfusion h

/-- Every error `deserialize` can return is the short-header error or the
invalid-pointer error — there is no TruncatedFrame-style error. -/
theorem deserializeCap_err (frame spare : List Nat) (e : String)
    (h : deserializeCap frame spare = .err e) :
    e = "invalid DNS header" ∨ e = "Invalid label reference" := by
  unfold deserializeCap at h
  dsimp only at h
  by_cases h12 : frame.length < 12
  · rw [if_pos h12] at h
    injection h with h2
    exact Or.inl h2.symm
  · rw [if_neg h12] at h
    cases hq : decodeQuestionsGoCap frame spare (Header.ofFrame frame).QDCOUNT 12
        LabelCache.empty with
    | err e2 =>
      rw [hq] at h
      injection h with h2
      rw [← h2]
      exact Or.inr (decodeQuestionsGoCap_err frame spare _ 12 LabelCache.empty e2 hq)
    | oob => rw [hq] at h; exact Res.noConfusion h
    | ok t =>
      rw [hq] at h
      obtain ⟨questions, head1, cache1⟩ := t
      dsimp only at h
      cases ha : decodeAnswersGoCap frame spare (Header.ofFrame frame).ANCOUNT head1
          cache1 with
      | err e2 =>
        rw [ha] at h
        injection h with h2
        rw [← h2]
        exact Or.inr (decodeAnswersGoCap_err frame spare _ head1 cache1 e2 ha)
      | oob => rw [ha] at h; exact Res.noConfusion h
      | ok t2 => rw [ha] at h; exact Res.noConfusion h

/-- A header-only 12-byte frame that declares one question: the first
label-length byte would be read at index 12, past the frame length. -/
def c1frame12 : List Nat := [0, 0, 0, 0, 0, 1, 0, 0, 0, 0, 0, 0]

/-- C1 counterexample: at this frame — a label-length byte read runs past
the end of the buffer — `deserialize` neither returns a decoded message nor
a TruncatedFrame-style error: the index read `frame[12]` is out of range
for the 12-byte frame, a Go panic that the server loop does not survive.
Go indexing is bounded by the frame length, not the buffer capacity, so
the panic happens regardless of the spare capacity (shown both with a
500-byte spare region, as under the server's 512-byte buffer, and with
none). -/
theorem C1_counterexample :
    deserializeCap c1frame12 (List.replicate 500 7) = Res.oob ∧
    deserialize c1frame12 = Res.oob := by decide

/-- A frame whose answer record declares `RDLENGTH = 10` with only 2 rdata
bytes inside the frame: the rdata slice read runs past the frame length but
(on the server's buffer) stays within capacity. -/
def c1frameRd : List Nat :=
  [0, 0, 0, 0, 0, 0, 0, 1, 0, 0, 0, 0] ++ [0] ++ [0, 1] ++ [0, 1] ++
  [0, 0, 0, 60] ++ [0, 10] ++ [1, 2]

/-- C1 amended: on the server's frames (`frame` plus the buffer's `spare`
region between length and capacity) `deserialize` returns an error only
for frames shorter than 12 bytes and for unresolvable compression pointers
— never a TruncatedFrame-style error.  A label-length byte read at or past
the frame end panics (index out of range, any fuel, any cursor), as does
any fixed-width 2-byte or 4-byte field read past the frame end; the slice
reads (literal label content and rdata) panic only past the buffer
capacity, and an overrun that stays within capacity succeeds, silently
returning spare-buffer bytes — as the last conjunct shows end-to-end: the
rdlength-overrun frame `c1frameRd` decodes without error or crash, its
rdata padded with the first 8 spare bytes. -/
theorem C1_amended (frame spare : List Nat) :
    (frame.length < 12 → deserializeCap frame spare = Res.err "invalid DNS header") ∧
    (∀ e, deserializeCap frame spare = Res.err e →
      e = "invalid DNS header" ∨ e = "Invalid label reference") ∧
    (∀ fuel head cache, frame.length ≤ head →
      decodeLabelsFuelCap frame spare fuel head cache = Res.oob) ∧
    (∀ off, frame.length ≤ off + 1 → extractUint16 frame off = Res.oob) ∧
    (∀ off, frame.length ≤ off + 3 → extractUint32 frame off = Res.oob) ∧
    (∀ off n, frame.length + spare.length < off + n →
      extractBytesCap frame spare off n = Res.oob) ∧
    (∀ off n, off + n ≤ frame.length + spare.length →
      extractBytesCap frame spare off n =
        Res.ok (((frame ++ spare).drop off).take n, off + n)) ∧
    (8 ≤ spare.length →
      deserializeCap c1frameRd spare =
        Res.ok { header := Header.ofFrame c1frameRd, question := [],
                 answer := [{ NAME := [], TYPE := [0, 1], CLASS := [0, 1],
                              TTL := [0, 0, 0, 60], RDLENGTH := [0, 10],
                              RDATA := [1, 2] ++ spare.take 8 }] }) := by
  refine ⟨?short, ?errs, ?labels, ?u16, ?u32, ?capoob, ?capok, ?rdlen⟩
  case short =>
    intro h
    unfold deserializeCap
    dsimp only
    rw [if_pos h]
  case errs => exact fun e h => deserializeCap_err frame spare e h
  case labels =>
    exact fun fuel head cache h => decodeLabelsFuelCap_oob frame spare fuel head cache h
  case u16 =>
    intro off hoff
    unfold extractUint16
    rw [List.get?_eq_none.mpr hoff]
    cases frame.get? off <;> rfl
  case u32 =>
    intro off hoff
    unfold extractUint32
    rw [List.get?_eq_none.mpr hoff]
    cases frame.get? off <;> cases frame.get? (off + 1) <;>
      cases frame.get? (off + 2) <;> rfl
  case capoob =>
    intro off n h
    unfold extractBytesCap
    rw [if_neg (by omega)]
  case capok =>
    intro off n h
    unfold extractBytesCap
    rw [if_pos h]
  case rdlen =>
    intro hsp
    have hxb : extractBytesCap c1frameRd spare 23 10 =
        Res.ok ([1, 2] ++ spare.take 8, 33) := by
      unfold extractBytesCap
      rw [if_pos (by simp only [c1frameRd, List.length_append, List.length_cons,
        List.length_nil]; omega)]
      have hsplit : c1frameRd ++ spare =
          ([0, 0, 0, 0, 0, 0, 0, 1, 0, 0, 0, 0, 0, 0, 1, 0, 1, 0, 0, 0, 60, 0, 10] :
            List Nat) ++ ([1, 2] ++ spare) := by
        simp [c1frameRd]
      rw [hsplit,
        show (23 : Nat) = ([0, 0, 0, 0, 0, 0, 0, 1, 0, 0, 0, 0, 0, 0, 1, 0, 1, 0, 0,
          0, 60, 0, 10] : List Nat).length from rfl,
        List.drop_left, List.take_append_eq_append_take]
      norm_num
    have hans : decodeAnswersGoCap c1frameRd spare 1 12 LabelCache.empty =
        Res.ok ([{ NAME := [], TYPE := [0, 1], CLASS := [0, 1], TTL := [0, 0, 0, 60],
                   RDLENGTH := [0, 10], RDATA := [1, 2] ++ spare.take 8 }], 33,
                LabelCache.empty) := by
      simp only [decodeAnswersGoCap,
        show decodeLabelsCap c1frameRd spare 12 LabelCache.empty =
          Res.ok ([], 13, LabelCache.empty) from rfl,
        show extractUint16 c1frameRd 13 = Res.ok ([0, 1], 1, 15) from rfl,
        show extractUint16 c1frameRd 15 = Res.ok ([0, 1], 1, 17) from rfl,
        show extractUint32 c1frameRd 17 = Res.ok ([0, 0, 0, 60], 60, 21) from rfl,
        show extractUint16 c1frameRd 21 = Res.ok ([0, 10], 10, 23) from rfl,
        hxb]
    unfold deserializeCap
    dsimp only
    rw [if_neg (by decide)]
    rw [show (Header.ofFrame c1frameRd).QDCOUNT = 0 from rfl]
    rw [show decodeQuestionsGoCap c1frameRd spare 0 12 LabelCache.empty =
      Res.ok ([], 12, LabelCache.empty) from rfl]
    dsimp only
    rw [show (Header.ofFrame c1frameRd).ANCOUNT = 1 from rfl]
    rw [hans]

/-- C1 witness: the amended claim instantiated concretely — a 1-byte frame
errors; the header-only one-question frame panics on its label-length read
even with 500 spare bytes; a fixed-width read at the end of `c1frame12`
panics; and the rdlength-overrun frame decodes successfully against a
487-byte spare region, its rdata finishing with spare bytes. -/
theorem C1_amended_witness :
    deserializeCap [0] (List.replicate 511 7) = Res.err "invalid DNS header" ∧
    decodeLabelsFuelCap c1frame12 (List.replicate 500 7) 13 12 LabelCache.empty =
      Res.oob ∧
    extractUint16 c1frame12 11 = Res.oob ∧
    deserializeCap c1frameRd (List.replicate 487 9) =
      Res.ok { header := Header.ofFrame c1frameRd, question := [],
               answer := [{ NAME := [], TYPE := [0, 1], CLASS := [0, 1],
                            TTL := [0, 0, 0, 60], RDLENGTH := [0, 10],
                            RDATA := [1, 2] ++ (List.replicate 487 9).take 8 }] } :=
  ⟨(C1_amended [0] (List.replicate 511 7)).1 (by decide),
   (C1_amended c1frame12 (List.replicate 500 7)).2.2.1 13 12 LabelCache.empty (by decide),
   (C1_amended c1frame12 []).2.2.2.1 11 (by decide),
   (C1_amended [] (List.replicate 487 9)).2.2.2.2.2.2.2 (by decide)⟩
